import Mathlib

/-!
# Verification of the OpenWebUI knowledge-base sync plugin

A shallow embedding of the reconciliation engine of the `openwebui-kb-sync`
Obsidian plugin (source file `main.ts`, mobile-enhanced variant).  Pure string
utilities (content hashing, stable upload names, tag extraction, link
rewriting) are translated directly; the stateful sync routines are embedded as
explicit state-passing functions over an `Env` record describing the remote
API's responses, returning the list of remote calls they issue.

Conventions of the embedding:
  * JavaScript strings are Lean `String`s (`charCodeAt` is modelled by the
    code point of the character; the strings handled by the plugin are ASCII).
  * `Record<string, T>` objects are association lists `List (String × T)`.
  * `Date.now()` is an explicit `now : Nat` parameter.
  * The outcome of each network request is drawn from an `Env` record; every
    issued request is logged in a `List RemoteCall` trace.
  * JavaScript exceptions are `Except String`; `error.message.includes`
    becomes a substring test on the error string.
  * In-place mutation of shared objects (the `FileRecord` stored in
    `settings.fileMapping` is the very object the removal helpers mutate) is
    modelled by writing the updated record back into the map at each point the
    source mutates it.
-/

namespace KBSync

/-! ## Association lists (JS `Record<string, T>` / `Map`) -/

def lookupA {β : Type} : List (String × β) → String → Option β
  | [], _ => none
  | (k, v) :: t, key => if k = key then some v else lookupA t key

def insertA {β : Type} : List (String × β) → String → β → List (String × β)
  | [], key, v => [(key, v)]
  | (k, w) :: t, key, v => if k = key then (key, v) :: t else (k, w) :: insertA t key v

def eraseA {β : Type} : List (String × β) → String → List (String × β)
  | [], _ => []
  | (k, w) :: t, key => if k = key then t else (k, w) :: eraseA t key

theorem lookupA_insertA_self {β : Type} (l : List (String × β)) (k : String) (v : β) :
    lookupA (insertA l k v) k = some v := by
  induction l with
  | nil => simp [insertA, lookupA]
  | cons hd t ih =>
    obtain ⟨k', w⟩ := hd
    by_cases h : k' = k <;> simp [insertA, lookupA, h, ih]

theorem lookupA_insertA_ne {β : Type} (l : List (String × β)) (k k' : String) (v : β)
    (h : k ≠ k') : lookupA (insertA l k v) k' = lookupA l k' := by
  induction l with
  | nil => simp [insertA, lookupA, h]
  | cons hd t ih =>
    obtain ⟨k0, w⟩ := hd
    by_cases h0 : k0 = k
    · subst h0
      simp [insertA, lookupA, h]
    · simp [insertA, lookupA, h0, ih]

theorem insertA_self {β : Type} (l : List (String × β)) (k : String) (v : β)
    (h : lookupA l k = some v) : insertA l k v = l := by
  induction l with
  | nil => simp [lookupA] at h
  | cons hd t ih =>
    obtain ⟨k0, w⟩ := hd
    by_cases h0 : k0 = k
    · subst h0
      simp [lookupA] at h
      simp [insertA, h]
    · simp [lookupA, h0] at h
      simp [insertA, h0, ih h]

/-! ## Sorting membership lists (JS `Array.prototype.sort` on strings) -/

def sortKBs (l : List String) : List String := l.insertionSort (· ≤ ·)

theorem sortKBs_idem (l : List String) : sortKBs (sortKBs l) = sortKBs l :=
  (List.sorted_insertionSort _ l).insertionSort_eq

/-! ## Substring test (JS `String.prototype.includes`) -/

def hasSeg (needle : List Char) : List Char → Bool
  | [] => needle.isEmpty
  | c :: cs => needle.isPrefixOf (c :: cs) || hasSeg needle cs

def strIncludes (haystack needle : String) : Bool :=
  hasSeg needle.data haystack.data

/-- The "not found" test applied to error messages by
`removeFileFromKnowledgeBase` and `deleteFileFromOpenWebUI`:
`error.message.includes('could not find') || includes('404') || includes('400')`. -/
def isNotFoundMsg (e : String) : Bool :=
  strIncludes e "could not find" || strIncludes e "404" || strIncludes e "400"

/-! ## JS `String.prototype.split` on a single-character separator -/

def jsSplit (sep : Char) : List Char → List (List Char)
  | [] => [[]]
  | c :: cs =>
    match jsSplit sep cs with
    | [] => [[]]
    | w :: ws => if c = sep then [] :: w :: ws else (c :: w) :: ws

theorem jsSplit_ne_nil (sep : Char) (l : List Char) : jsSplit sep l ≠ [] := by
  cases l with
  | nil => simp [jsSplit]
  | cons c cs =>
    simp only [jsSplit]
    cases jsSplit sep cs with
    | nil => simp
    | cons w ws =>
      by_cases h : c = sep <;> simp [h]

/-- The suffix of `l` after the last occurrence of `sep`
(the whole list when `sep` does not occur). -/
def lastSeg (sep : Char) : List Char → List Char
  | [] => []
  | c :: cs => if sep ∈ cs then lastSeg sep cs else if c = sep then cs else c :: cs

theorem jsSplit_no_sep (sep : Char) (l : List Char) (h : sep ∉ l) :
    jsSplit sep l = [l] := by
  induction l with
  | nil => rfl
  | cons c cs ih =>
    simp only [List.mem_cons, not_or] at h
    have hc : ¬ c = sep := fun hh => h.1 hh.symm
    simp [jsSplit, ih h.2, hc]

theorem jsSplit_length_ge_two (sep : Char) (l : List Char) (h : sep ∈ l) :
    2 ≤ (jsSplit sep l).length := by
  induction l with
  | nil => simp at h
  | cons c cs ih =>
    rw [jsSplit]
    have hne := jsSplit_ne_nil sep cs
    cases hsp : jsSplit sep cs with
    | nil => exact absurd hsp hne
    | cons w ws =>
      by_cases hc : c = sep
      · simp [hc]
      · have hmem : sep ∈ cs := by
          rcases List.mem_cons.mp h with h' | h'
          · exact absurd h'.symm hc
          · exact h'
        have := ih hmem
        rw [hsp] at this
        simp only [if_neg hc, List.length_cons] at this ⊢
        omega

theorem getLastD_jsSplit (sep : Char) (l : List Char) :
    (jsSplit sep l).getLastD [] = lastSeg sep l := by
  induction l with
  | nil => rfl
  | cons c cs ih =>
    rw [jsSplit, lastSeg]
    have hne := jsSplit_ne_nil sep cs
    cases hsp : jsSplit sep cs with
    | nil => exact absurd hsp hne
    | cons w ws =>
      rw [hsp] at ih
      by_cases hmem : sep ∈ cs
      · have hlen := jsSplit_length_ge_two sep cs hmem
        rw [hsp] at hlen
        simp only [List.length_cons, List.length_nil] at hlen
        cases ws with
        | nil => simp at hlen
        | cons w2 ws2 =>
          by_cases hc : c = sep <;>
            simp_all [List.getLastD_cons, lastSeg, hmem]
      · have := jsSplit_no_sep sep cs hmem
        rw [hsp] at this
        obtain ⟨hw, hws⟩ : w = cs ∧ ws = [] := by
          injection this with h1 h2
          exact ⟨h1, h2⟩
        subst hw hws
        by_cases hc : c = sep <;> simp [hc, hmem, List.getLastD_cons]

/-! ## `takeWhile` helpers -/

theorem takeWhile_of_all {p : Char → Bool} {l : List Char}
    (h : ∀ a ∈ l, p a = true) : l.takeWhile p = l := by
  induction l with
  | nil => rfl
  | cons c cs ih =>
    rw [List.takeWhile_cons, if_pos (h c (List.mem_cons_self c cs))]
    rw [ih fun a ha => h a (List.mem_cons_of_mem c ha)]

theorem length_takeWhile_eq_iff (p : Char → Bool) (l : List Char) :
    (l.takeWhile p).length = l.length ↔ ∀ a ∈ l, p a = true := by
  constructor
  · intro h a ha
    have hpre := List.takeWhile_prefix (l := l) p
    have : l.takeWhile p = l := List.IsPrefix.eq_of_length hpre h
    have hmem : a ∈ l.takeWhile p := by rw [this]; exact ha
    exact List.mem_takeWhile_imp hmem
  · intro h
    rw [takeWhile_of_all h]

theorem takeWhile_congr_mem {p q : Char → Bool} {l : List Char}
    (h : ∀ a ∈ l, p a = q a) : l.takeWhile p = l.takeWhile q := by
  induction l with
  | nil => rfl
  | cons c cs ih =>
    rw [List.takeWhile_cons, List.takeWhile_cons, h c (List.mem_cons_self c cs)]
    by_cases hq : q c = true
    · rw [if_pos hq, if_pos hq, ih fun a ha => h a (List.mem_cons_of_mem c ha)]
    · rw [if_neg hq, if_neg hq]

theorem lastSeg_eq_takeWhile_reverse (sep : Char) (l : List Char) :
    lastSeg sep l = (l.reverse.takeWhile (fun c => c != sep)).reverse := by
  induction l with
  | nil => rfl
  | cons c cs ih =>
    rw [lastSeg, List.reverse_cons, List.takeWhile_append]
    by_cases hmem : sep ∈ cs
    · have hcond : (cs.reverse.takeWhile (fun c => c != sep)).length ≠ cs.reverse.length := by
        intro hlen
        have hall := (length_takeWhile_eq_iff _ _).mp hlen
        have := hall sep (List.mem_reverse.mpr hmem)
        simp at this
      rw [if_pos hmem, if_neg hcond, ih]
    · have hcond : (cs.reverse.takeWhile (fun c => c != sep)).length = cs.reverse.length := by
        apply (length_takeWhile_eq_iff _ _).mpr
        intro a ha
        have : a ∈ cs := List.mem_reverse.mp ha
        simp only [bne_iff_ne, ne_eq, decide_eq_true_eq]
        exact fun hc => hmem (hc ▸ this)
      rw [if_neg hmem, if_pos hcond]
      by_cases hc : c = sep
      · rw [if_pos hc, List.takeWhile_cons, if_neg (by simp [hc]), List.append_nil,
          List.reverse_reverse]
      · rw [if_neg hc, List.takeWhile_cons, if_pos (by simp [hc]), List.takeWhile_nil,
          List.reverse_append, List.reverse_reverse, List.reverse_cons, List.reverse_nil,
          List.nil_append, List.singleton_append]

/-! ## Content fingerprint (`generateContentHash`) -/

/-- JS `ToInt32`: reduce an integer to the signed 32-bit range. -/
def toInt32 (z : Int) : Int :=
  let m := z.emod 4294967296
  if m < 2147483648 then m else m - 4294967296

def natToHex (n : Nat) : String := String.mk (Nat.toDigits 16 n)

/-- `generateContentHash` from `main.ts`: the `h = ((h << 5) - h) + code`
rolling hash over the code units, truncated to the signed 32-bit range by
`h = h & h`, printed as lowercase hex of its absolute value
(and `"0"` for empty input). -/
def generateContentHash (content : String) : String :=
  if content.length = 0 then "0"
  else
    let h := content.data.foldl
      (fun h c => toInt32 (toInt32 (h * 32) - h + (c.toNat : Int))) 0
    natToHex h.natAbs

/-! ## Stable upload names (`generateStableFilename`) -/

/-- The character class `[a-zA-Z0-9\-_]` used both by the sanitizing regex in
`generateStableFilename` and by the `#kb/` tag regex. -/
def isSafeChar (c : Char) : Bool :=
  ('a' ≤ c && c ≤ 'z') || ('A' ≤ c && c ≤ 'Z') || ('0' ≤ c && c ≤ '9') ||
    c == '-' || c == '_'

def sanitizeChars (l : List Char) : List Char :=
  l.map (fun c => if isSafeChar c then c else '_')

/-- `originalName.replace(/\.[^/.]+$/, '')`: remove a trailing dot followed by
a nonempty run of characters containing neither `/` nor `.` (that is the only
place the anchored pattern can match). -/
def stripExtension (s : String) : String :=
  let r := s.data.reverse
  let ext := r.takeWhile (fun c => !(c == '.' || c == '/'))
  if ext.isEmpty then s
  else
    match r.drop ext.length with
    | '.' :: restR => String.mk restR.reverse
    | _ => s

/-- `generateStableFilename` from `main.ts`:
`baseName ++ "_" ++ contentHash.substring(0, 8) ++ "." ++ extension` with
`extension = originalName.split('.').pop() || 'md'` and `baseName` the
extension-stripped name sanitized to `[a-zA-Z0-9\-_]`. -/
def generateStableFilename (originalName contentHash : String) : String :=
  let parts := jsSplit '.' originalName.data
  let lastPart := parts.getLastD []
  let extension := if lastPart.isEmpty then ['m', 'd'] else lastPart
  let baseName := sanitizeChars (stripExtension originalName).data
  String.mk (baseName ++ '_' :: contentHash.data.take 8 ++ '.' :: extension)

/-- Spec-side formulation: the final extension of a name is the substring
after its last dot — the whole name when it has no dot — written here
independently of the `split`/`pop` implementation. -/
def specFinalExt (name : String) : List Char :=
  (name.data.reverse.takeWhile (fun c => c != '.')).reverse

/-- Spec-side formulation of stripping the final extension: drop the final dot
and the nonempty extension after it, when there is one. -/
def specStripExt (name : String) : String :=
  let ext := specFinalExt name
  if name.data.contains '.' && !ext.isEmpty then
    String.mk (name.data.take (name.data.length - ext.length - 1))
  else name

/-- The stable-name formula as the (amended) claim words it:
`sanitize(baseName) ++ "_" ++ hash[:8] ++ "." ++ extension`, the extension
defaulting to `md` only when the substring after the final dot is empty. -/
def specStableName (name contentHash : String) : String :=
  let ext := specFinalExt name
  let extension := if ext.isEmpty then ['m', 'd'] else ext
  let base := sanitizeChars (specStripExt name).data
  String.mk (base ++ '_' :: contentHash.data.take 8 ++ '.' :: extension)

theorem dropWhile_head_false {p : Char → Bool} {l : List Char} {d : Char} {ds : List Char}
    (h : l.dropWhile p = d :: ds) : p d = false := by
  induction l with
  | nil => simp [List.dropWhile] at h
  | cons c cs ih =>
    rw [List.dropWhile_cons] at h
    by_cases hc : p c = true
    · rw [if_pos hc] at h
      exact ih h
    · rw [if_neg hc] at h
      injection h with h1 _
      subst h1
      exact Bool.eq_false_iff.mpr hc

theorem stripExtension_eq_spec (name : String) (h : '/' ∉ name.data) :
    stripExtension name = specStripExt name := by
  have hcong : name.data.reverse.takeWhile (fun c => !(c == '.' || c == '/'))
      = name.data.reverse.takeWhile (fun c => c != '.') := by
    apply takeWhile_congr_mem
    intro a ha
    have hmem : a ∈ name.data := List.mem_reverse.mp ha
    have hna : ¬ a = '/' := fun hh => h (hh ▸ hmem)
    have e2 : (a == '/') = false := beq_eq_false_iff_ne.mpr hna
    by_cases hd : a = '.'
    · simp [hd]
    · have e1 : (a == '.') = false := beq_eq_false_iff_ne.mpr hd
      simp [e1, e2, bne]
  simp only [stripExtension, specStripExt, specFinalExt]
  rw [hcong]
  have hsplit : name.data.reverse.takeWhile (fun c => c != '.')
      ++ name.data.reverse.dropWhile (fun c => c != '.') = name.data.reverse :=
    List.takeWhile_append_dropWhile _ _
  have hdrop : name.data.reverse.drop
        (name.data.reverse.takeWhile (fun c => c != '.')).length
      = name.data.reverse.dropWhile (fun c => c != '.') := by
    have h0 := List.drop_left (name.data.reverse.takeWhile (fun c => c != '.'))
      (name.data.reverse.dropWhile (fun c => c != '.'))
    rw [hsplit] at h0
    exact h0
  cases hdw : name.data.reverse.dropWhile (fun c => c != '.') with
  | nil =>
    have htw_full : name.data.reverse.takeWhile (fun c => c != '.')
        = name.data.reverse := by
      conv_rhs => rw [← hsplit, hdw, List.append_nil]
    have hnodot : ('.' : Char) ∉ name.data := by
      intro hmem
      have hmemtw : ('.' : Char) ∈ name.data.reverse.takeWhile (fun c => c != '.') := by
        rw [htw_full]
        exact List.mem_reverse.mpr hmem
      have := List.mem_takeWhile_imp hmemtw
      simp at this
    have hcontains : name.data.contains '.' = false := by
      simpa [List.contains] using hnodot
    rw [hdrop, hdw, hcontains]
    simp
  | cons d ds =>
    have hPd := dropWhile_head_false hdw
    have hd : d = '.' := by simpa using hPd
    subst hd
    have hdotmem : ('.' : Char) ∈ name.data := by
      have h1 : ('.' : Char) ∈ name.data.reverse.dropWhile (fun c => c != '.') := by
        rw [hdw]; exact List.mem_cons_self _ _
      have h2 : ('.' : Char) ∈ name.data.reverse :=
        (List.dropWhile_sublist _).mem h1
      exact List.mem_reverse.mp h2
    have hcontains : name.data.contains '.' = true := by
      simpa [List.contains] using hdotmem
    rw [hdrop, hdw, hcontains]
    by_cases hempty : (name.data.reverse.takeWhile (fun c => c != '.')).isEmpty = true
    · have htw0 : name.data.reverse.takeWhile (fun c => c != '.') = [] := by
        simpa [List.isEmpty_iff] using hempty
      rw [htw0]
      simp
    · have hlen : name.data.length
          = (name.data.reverse.takeWhile (fun c => c != '.')).length + 1 + ds.length := by
        have h1 : name.data.reverse.length
            = (name.data.reverse.takeWhile (fun c => c != '.')
                ++ ('.' :: ds)).length := by
          conv_lhs => rw [← hsplit, hdw]
        rw [List.length_reverse] at h1
        rw [h1, List.length_append]
        simp only [List.length_cons]
        omega
      have hds : ds = name.data.reverse.drop
          ((name.data.reverse.takeWhile (fun c => c != '.')).length + 1) := by
        have h1 : (name.data.reverse.drop
            ((name.data.reverse.takeWhile (fun c => c != '.')).length)).drop 1
            = name.data.reverse.drop
              ((name.data.reverse.takeWhile (fun c => c != '.')).length + 1) := by
          rw [List.drop_drop]
        rw [← h1, hdrop, hdw]
        rfl
      have htake : ds.reverse = name.data.take (name.data.length
            - (name.data.reverse.takeWhile (fun c => c != '.')).length - 1) := by
        have hn : name.data.length
            - ((name.data.length
                - (name.data.reverse.takeWhile (fun c => c != '.')).length - 1))
            = (name.data.reverse.takeWhile (fun c => c != '.')).length + 1 := by
          omega
        have hrt := List.reverse_take (l := name.data)
          (n := name.data.length
            - (name.data.reverse.takeWhile (fun c => c != '.')).length - 1)
        rw [hn, ← hds] at hrt
        rw [← hrt, List.reverse_reverse]
      have hne : ¬ ((name.data.reverse.takeWhile (fun c => c != '.')).reverse.isEmpty
          = true) := by
        intro hh
        apply hempty
        have h0 : (name.data.reverse.takeWhile (fun c => c != '.')).reverse = [] := by
          simpa [List.isEmpty_iff] using hh
        have h1 : name.data.reverse.takeWhile (fun c => c != '.') = [] :=
          List.reverse_eq_nil_iff.mp h0
        simp [h1]
      rw [if_neg hempty]
      have hie : (name.data.reverse.takeWhile (fun c => c != '.')).reverse.isEmpty
          = false := Bool.eq_false_iff.mpr hne
      show String.mk ds.reverse = _
      rw [htake, hie]
      simp only [List.length_reverse, Bool.not_false, Bool.and_self,
        eq_self_iff_true, if_true]

theorem generateStableFilename_eq_spec (name contentHash : String)
    (h : '/' ∉ name.data) :
    generateStableFilename name contentHash = specStableName name contentHash := by
  simp only [generateStableFilename, specStableName, specFinalExt]
  rw [getLastD_jsSplit, lastSeg_eq_takeWhile_reverse, stripExtension_eq_spec name h]

/-! ## KB tag extraction (`findFilesWithKBTags`, `convertTagToKnowledgeBaseName`) -/

/-- The token class `[a-zA-Z0-9\-_]` of the `#kb/` tag regex. -/
def isTagChar (c : Char) : Bool := isSafeChar c

/-- Left-to-right scan of `content.matchAll(/#kb\/([a-zA-Z0-9\-_]+)/g)`: at
each position the literal lowercase `#kb/` followed by a maximal nonempty run
of token characters is a match, consumed whole; otherwise the scan advances
one character.  `fuel` bounds the recursion; every step consumes at least one
character, so `fuel = length` is enough. -/
def kbTagScan : Nat → List Char → List (List Char)
  | 0, _ => []
  | _ + 1, [] => []
  | fuel + 1, c :: cs =>
    if c = '#' ∧ cs.take 3 = ['k', 'b', '/'] then
      let rest2 := cs.drop 3
      let t := rest2.takeWhile isTagChar
      if t.isEmpty then kbTagScan fuel cs
      else t :: kbTagScan fuel (rest2.drop t.length)
    else kbTagScan fuel cs

/-- All raw tag tokens matched in a document, in order. -/
def kbTagMatches (content : String) : List String :=
  (kbTagScan content.data.length content.data).map (fun t => String.mk t)

/-- `convertTagToKnowledgeBaseName` from `main.ts`: replace `-`/`_` by spaces,
lowercase, then uppercase the first character of each space-separated word. -/
def convertTagToKnowledgeBaseName (tagName : String) : String :=
  let replaced := tagName.data.map (fun c => if c == '-' || c == '_' then ' ' else c)
  let lowered := replaced.map Char.toLower
  let words := jsSplit ' ' lowered
  let capped := words.map (fun w =>
    match w with
    | [] => []
    | c :: cs => c.toUpper :: cs)
  String.mk (List.intercalate [' '] capped)

/-- The declared-membership extractor: every `#kb/<token>` occurrence in the
document, each token converted to its display name (the per-file loop of
`findFilesWithKBTags`). -/
def extractDeclaredMemberships (content : String) : List String :=
  (kbTagMatches content).map convertTagToKnowledgeBaseName

theorem kbTagScan_nil (fuel : Nat) : kbTagScan fuel [] = [] := by
  cases fuel <;> rfl

theorem kbTagScan_skip (pre : List Char) (n : Nat) (s : List Char)
    (hpre : '#' ∉ pre) :
    kbTagScan (pre.length + n) (pre ++ s) = kbTagScan n s := by
  induction pre with
  | nil => simp
  | cons c cs ih =>
    simp only [List.mem_cons, not_or] at hpre
    have hc : ¬ (c = '#' ∧ (cs ++ s).take 3 = ['k', 'b', '/']) :=
      fun hh => hpre.1 hh.1.symm
    have hlen : (c :: cs).length + n = (cs.length + n) + 1 := by
      simp [List.length_cons]
      omega
    rw [hlen]
    show kbTagScan ((cs.length + n) + 1) (c :: (cs ++ s)) = kbTagScan n s
    rw [kbTagScan, if_neg hc]
    exact ih hpre.2

theorem kbTagScan_match (n : Nat) (t : List Char) (ht : t ≠ [])
    (htc : ∀ c ∈ t, isTagChar c = true) :
    kbTagScan (n + 1) ('#' :: 'k' :: 'b' :: '/' :: t) = [t] := by
  rw [kbTagScan, if_pos ⟨rfl, rfl⟩]
  show (if (t.takeWhile isTagChar).isEmpty then _
    else t.takeWhile isTagChar :: kbTagScan n (t.drop (t.takeWhile isTagChar).length)) = [t]
  rw [takeWhile_of_all htc]
  have hne : t.isEmpty = false := by
    cases t with
    | nil => exact absurd rfl ht
    | cons a as => rfl
  rw [hne]
  show t :: kbTagScan n (t.drop t.length) = [t]
  rw [List.drop_length, kbTagScan_nil]

/-! ## Link rewriting (`processObsidianLinks`) -/

/-- Characters that `encodeURIComponent` leaves unescaped. -/
def isUriUnreserved (c : Char) : Bool :=
  ('a' ≤ c && c ≤ 'z') || ('A' ≤ c && c ≤ 'Z') || ('0' ≤ c && c ≤ '9') ||
    c == '-' || c == '_' || c == '.' || c == '!' || c == '~' || c == '*' ||
    c == Char.ofNat 39 || c == '(' || c == ')'

def hexDigitUpper (n : Nat) : Char :=
  if n < 10 then Char.ofNat (48 + n) else Char.ofNat (55 + n)

/-- UTF-8 bytes of a code point. -/
def utf8Bytes (n : Nat) : List Nat :=
  if n < 128 then [n]
  else if n < 2048 then [192 + n / 64, 128 + n % 64]
  else if n < 65536 then [224 + n / 4096, 128 + (n / 64) % 64, 128 + n % 64]
  else [240 + n / 262144, 128 + (n / 4096) % 64, 128 + (n / 64) % 64, 128 + n % 64]

def percentEncodeChar (c : Char) : List Char :=
  (utf8Bytes c.toNat).foldr
    (fun b acc => '%' :: hexDigitUpper (b / 16) :: hexDigitUpper (b % 16) :: acc) []

def encodeURIComponent (s : String) : String :=
  String.mk (s.data.foldr
    (fun c acc => if isUriUnreserved c then c :: acc else percentEncodeChar c ++ acc) [])

/-- `filePath.includes('.') ? filePath : filePath + '.md'`. -/
def addMdIfNeeded (filePath : List Char) : List Char :=
  if filePath.contains '.' then filePath else filePath ++ ['.', 'm', 'd']

/-- The `obsidian://open?vault=...&file=...` URI. -/
def obsidianUri (encodedVault : String) (filePath : List Char) : List Char :=
  "obsidian://open?vault=".data ++ encodedVault.data
    ++ "&file=".data ++ (encodeURIComponent (String.mk filePath)).data

/-- `filePath.split('/').pop() || filePath`. -/
def displayTextOf (filePath : List Char) : List Char :=
  let lastPart := (jsSplit '/' filePath).getLastD []
  if lastPart.isEmpty then filePath else lastPart

def isNotPipeBracket (c : Char) : Bool := !(c == ']' || c == '|')

def isNotBracket (c : Char) : Bool := !(c == ']')

/-- Replacement text for `[[path|display]]`. -/
def pipeLinkRepl (encodedVault : String) (filePath displayText : List Char) : List Char :=
  '[' :: displayText ++ ']' :: '(' :: obsidianUri encodedVault (addMdIfNeeded filePath) ++ [')']

/-- Replacement text for `[[path]]`. -/
def plainLinkRepl (encodedVault : String) (filePath : List Char) : List Char :=
  '[' :: displayTextOf filePath
    ++ ']' :: '(' :: obsidianUri encodedVault (addMdIfNeeded filePath) ++ [')']

/-- Replacement text for `![[path]]` (no `.md` is appended). -/
def embedRepl (encodedVault : String) (filePath : List Char) : List Char :=
  "*Embedded: [".data ++ displayTextOf filePath
    ++ "](".data ++ obsidianUri encodedVault filePath ++ ")*".data

/-- Global replace of `/\[\[([^\]|]+)\|([^\]]+)\]\]/g`: because the first
group excludes both `]` and `|` and the second excludes `]`, each group is
forced to be the maximal run at its position, so the scan is deterministic.
On a failed match the scan advances one character, as the regex engine does. -/
def scanPipeLinks (encodedVault : String) : Nat → List Char → List Char
  | 0, s => s
  | _ + 1, [] => []
  | fuel + 1, c :: cs =>
    if c = '[' ∧ cs.take 1 = ['['] then
      let rest := cs.drop 1
      let a := rest.takeWhile isNotPipeBracket
      let afterA := rest.drop a.length
      if ¬ a.isEmpty ∧ afterA.take 1 = ['|'] then
        let rest2 := afterA.drop 1
        let b := rest2.takeWhile isNotBracket
        let afterB := rest2.drop b.length
        if ¬ b.isEmpty ∧ afterB.take 2 = [']', ']'] then
          pipeLinkRepl encodedVault a b ++ scanPipeLinks encodedVault fuel (afterB.drop 2)
        else c :: scanPipeLinks encodedVault fuel cs
      else c :: scanPipeLinks encodedVault fuel cs
    else c :: scanPipeLinks encodedVault fuel cs

/-- Global replace of `/\[\[([^\]]+)\]\]/g`. -/
def scanPlainLinks (encodedVault : String) : Nat → List Char → List Char
  | 0, s => s
  | _ + 1, [] => []
  | fuel + 1, c :: cs =>
    if c = '[' ∧ cs.take 1 = ['['] then
      let rest := cs.drop 1
      let a := rest.takeWhile isNotBracket
      let afterA := rest.drop a.length
      if ¬ a.isEmpty ∧ afterA.take 2 = [']', ']'] then
        plainLinkRepl encodedVault a ++ scanPlainLinks encodedVault fuel (afterA.drop 2)
      else c :: scanPlainLinks encodedVault fuel cs
    else c :: scanPlainLinks encodedVault fuel cs

/-- Global replace of `/!\[\[([^\]]+)\]\]/g`. -/
def scanEmbedLinks (encodedVault : String) : Nat → List Char → List Char
  | 0, s => s
  | _ + 1, [] => []
  | fuel + 1, c :: cs =>
    if c = '!' ∧ cs.take 2 = ['[', '['] then
      let rest := cs.drop 2
      let a := rest.takeWhile isNotBracket
      let afterA := rest.drop a.length
      if ¬ a.isEmpty ∧ afterA.take 2 = [']', ']'] then
        embedRepl encodedVault a ++ scanEmbedLinks encodedVault fuel (afterA.drop 2)
      else c :: scanEmbedLinks encodedVault fuel cs
    else c :: scanEmbedLinks encodedVault fuel cs

/-- `processObsidianLinks` from `main.ts`: the three global replaces applied
in source order (piped links, then plain links, then embeds). -/
def processObsidianLinks (content vaultName : String) : String :=
  let encodedVault := encodeURIComponent vaultName
  let s1 := scanPipeLinks encodedVault content.data.length content.data
  let s2 := scanPlainLinks encodedVault s1.length s1
  let s3 := scanEmbedLinks encodedVault s2.length s2
  String.mk s3

/-- `true` iff the two-character sequence `[[` occurs in the list. -/
def hasDoubleBracket : List Char → Bool
  | [] => false
  | [_] => false
  | c1 :: c2 :: rest => (c1 == '[' && c2 == '[') || hasDoubleBracket (c2 :: rest)

theorem hasDoubleBracket_tail {c : Char} {cs : List Char}
    (h : hasDoubleBracket (c :: cs) = false) : hasDoubleBracket cs = false := by
  cases cs with
  | nil => rfl
  | cons c2 rest =>
    rw [hasDoubleBracket] at h
    exact (Bool.or_eq_false_iff.mp h).2

theorem take_one_ne_bracket {c : Char} {cs : List Char}
    (h : hasDoubleBracket (c :: cs) = false) (hc : c = '[') : cs.take 1 ≠ ['['] := by
  intro htake
  cases cs with
  | nil => simp at htake
  | cons c2 rest =>
    have hc2 : c2 = '[' := by simpa using htake
    rw [hasDoubleBracket] at h
    have h1 := (Bool.or_eq_false_iff.mp h).1
    rw [hc, hc2] at h1
    simp at h1

theorem take_two_ne_brackets {cs : List Char}
    (h : hasDoubleBracket cs = false) : cs.take 2 ≠ ['[', '['] := by
  intro htake
  cases cs with
  | nil => simp at htake
  | cons c1 rest =>
    cases rest with
    | nil => simp at htake
    | cons c2 r2 =>
      obtain ⟨h1, h2⟩ : c1 = '[' ∧ c2 = '[' := by simpa using htake
      rw [hasDoubleBracket] at h
      have h3 := (Bool.or_eq_false_iff.mp h).1
      rw [h1, h2] at h3
      simp at h3

theorem scanPipeLinks_id (v : String) (fuel : Nat) (s : List Char)
    (h : hasDoubleBracket s = false) : scanPipeLinks v fuel s = s := by
  induction fuel generalizing s with
  | zero => rfl
  | succ m ih =>
    cases s with
    | nil => rfl
    | cons c cs =>
      have htail := hasDoubleBracket_tail h
      rw [scanPipeLinks]
      by_cases hc : c = '[' ∧ cs.take 1 = ['[']
      · exact absurd hc.2 (take_one_ne_bracket h hc.1)
      · rw [if_neg hc, ih cs htail]

theorem scanPlainLinks_id (v : String) (fuel : Nat) (s : List Char)
    (h : hasDoubleBracket s = false) : scanPlainLinks v fuel s = s := by
  induction fuel generalizing s with
  | zero => rfl
  | succ m ih =>
    cases s with
    | nil => rfl
    | cons c cs =>
      have htail := hasDoubleBracket_tail h
      rw [scanPlainLinks]
      by_cases hc : c = '[' ∧ cs.take 1 = ['[']
      · exact absurd hc.2 (take_one_ne_bracket h hc.1)
      · rw [if_neg hc, ih cs htail]

theorem scanEmbedLinks_id (v : String) (fuel : Nat) (s : List Char)
    (h : hasDoubleBracket s = false) : scanEmbedLinks v fuel s = s := by
  induction fuel generalizing s with
  | zero => rfl
  | succ m ih =>
    cases s with
    | nil => rfl
    | cons c cs =>
      have htail := hasDoubleBracket_tail h
      rw [scanEmbedLinks]
      by_cases hc : c = '!' ∧ cs.take 2 = ['[', '[']
      · exact absurd hc.2 (take_two_ne_brackets htail)
      · rw [if_neg hc, ih cs htail]

/-- C10: the link-rewrite transform is the identity on link-free text — for
every content string with no occurrence of the substring `[[` and every vault
name, `processObsidianLinks` returns the content unchanged.  All three regex
passes require a `[[` (the embed pass requires `![[`), so none can fire. -/
theorem c10_link_rewrite_identity_on_link_free_text (content vaultName : String)
    (h : hasDoubleBracket content.data = false) :
    processObsidianLinks content vaultName = content := by
  simp only [processObsidianLinks]
  rw [scanPipeLinks_id _ _ _ h, scanPlainLinks_id _ _ _ h, scanEmbedLinks_id _ _ _ h]

/-- Witness for C10 at a concrete link-free document. -/
theorem c10_link_rewrite_identity_witness :
    hasDoubleBracket ("a [simple] note, no wiki links".data) = false ∧
    processObsidianLinks "a [simple] note, no wiki links" "My Vault"
      = "a [simple] note, no wiki links" :=
  ⟨by decide,
   c10_link_rewrite_identity_on_link_free_text _ "My Vault" (by decide)⟩

/-- C8 counterexample: the tag regex `/#kb\/([a-zA-Z0-9\-_]+)/g` has no `i`
flag, so the marker is matched case-sensitively — `#KB/docs` is not
recognized, while `#kb/docs` is.  The claim asserts case-insensitive
matching of the marker. -/
theorem c8_extractor_counterexample :
    extractDeclaredMemberships "#KB/docs" = [] ∧
    extractDeclaredMemberships "#kb/docs" = ["Docs"] := by
  constructor <;> rfl

/-- C8 (amended): the extractor recognizes every occurrence of the lowercase
marker `#kb/` followed by a nonempty `[A-Za-z0-9_-]+` token — stated here for
a document consisting of a marker-free prefix followed by one marker — and
maps the token to its canonical display form (underscores and hyphens to
spaces, then each word title-cased, e.g. `company_docs` to `Company Docs`). -/
theorem c8_extractor_amended (pre t : List Char)
    (hpre : '#' ∉ pre) (ht : t ≠ []) (htc : ∀ c ∈ t, isTagChar c = true) :
    extractDeclaredMemberships (String.mk (pre ++ '#' :: 'k' :: 'b' :: '/' :: t))
        = [convertTagToKnowledgeBaseName (String.mk t)] ∧
    convertTagToKnowledgeBaseName "company_docs" = "Company Docs" := by
  constructor
  · unfold extractDeclaredMemberships kbTagMatches
    show ((kbTagScan (pre ++ '#' :: 'k' :: 'b' :: '/' :: t).length
        (pre ++ '#' :: 'k' :: 'b' :: '/' :: t)).map
          (fun t => String.mk t)).map convertTagToKnowledgeBaseName = _
    have hlen : (pre ++ '#' :: 'k' :: 'b' :: '/' :: t).length
        = pre.length + ((t.length + 3) + 1) := by
      simp [List.length_append]
    rw [hlen, kbTagScan_skip pre _ _ hpre, kbTagScan_match _ t ht htc]
    simp only [List.map_cons, List.map_nil]
  · rfl

/-- Witness for the amended C8 at a concrete document. -/
theorem c8_extractor_amended_witness :
    ('#' ∉ "see tag ".data) ∧ ("my-project".data ≠ []) ∧
    (∀ c ∈ "my-project".data, isTagChar c = true) ∧
    extractDeclaredMemberships
        (String.mk ("see tag ".data ++ '#' :: 'k' :: 'b' :: '/' :: "my-project".data))
      = [convertTagToKnowledgeBaseName (String.mk "my-project".data)] :=
  ⟨by decide, by decide, by decide,
   (c8_extractor_amended "see tag ".data "my-project".data
     (by decide) (by decide) (by decide)).1⟩

/-- C9 counterexample: for an original name with no dot, the derived
extension is the whole name, not the claimed default `md` —
`split('.').pop()` returns the only segment, and `|| 'md'` fires only when
that segment is empty. -/
theorem c9_stable_name_counterexample :
    generateStableFilename "readme" "0123456789" = "readme_01234567.readme" ∧
    "readme_01234567.readme" ≠ "readme_01234567.md" :=
  ⟨rfl, by decide⟩

/-- C9 (amended): for every original file name containing no `/` (Obsidian
file names are base names) and every content hash, the derived stable upload
name equals `sanitize(baseName) ++ "_" ++ hash[:8] ++ "." ++ extension`,
where the extension is the substring after the final dot — the whole name
when there is no dot, and `md` only when that substring is empty — and
`baseName` is the name with its final dot-extension stripped and every
character outside `[A-Za-z0-9_-]` replaced by `_`.  Determinism of the
function gives that identical content under the same original name derives
identical stable names. -/
theorem c9_stable_name_amended (name hash : String) (h : '/' ∉ name.data) :
    generateStableFilename name hash = specStableName name hash :=
  generateStableFilename_eq_spec name hash h

/-- Witness for the amended C9 at a concrete name and hash. -/
theorem c9_stable_name_amended_witness :
    ('/' ∉ "My Note.md".data) ∧
    generateStableFilename "My Note.md" "64dc9f3a99"
      = specStableName "My Note.md" "64dc9f3a99" :=
  ⟨by decide, c9_stable_name_amended "My Note.md" "64dc9f3a99" (by decide)⟩

/-! ## Remote model: state, calls, environment -/

/-- `OpenWebUIFileRecord`: the per-document sync record persisted in
`settings.fileMapping`. -/
structure FileRecord where
  fileId : String
  uploadedFilename : String
  contentHash : String
  lastModified : Nat
  knowledgeBases : List String
deriving DecidableEq

structure KnowledgeBase where
  id : String
  name : String
  description : String
deriving DecidableEq

/-- The plugin state the engine reads and writes: the two persisted maps of
`settings`, the in-memory knowledge-base cache (name to id and cached-at
timestamp), and the `syncStatus.synced` progress counter. -/
structure SyncState where
  syncState : List (String × List String)
  fileMapping : List (String × FileRecord)
  kbCache : List (String × (String × Nat))
  synced : Nat
deriving DecidableEq

/-- One remote API request issued during a pass. -/
inductive RemoteCall where
  | listKB : RemoteCall
  | createKB : String → RemoteCall
  | uploadReq : String → String → RemoteCall
  | addFileReq : String → String → RemoteCall
  | removeFileReq : String → String → RemoteCall
  | deleteFileReq : String → RemoteCall
deriving DecidableEq

/-- Deterministic model of the remote responses: what each endpoint answers
when called during the pass. -/
structure Env where
  listKBs : Except String (List KnowledgeBase)
  createKB : String → Except String String
  uploadFile : String → String → Except String String
  addFile : String → String → Except String Unit
  removeFile : String → String → Except String Unit
  deleteFile : String → Except String Unit

def KB_CACHE_TTL : Nat := 5 * 60 * 1000

/-- The cache-refresh path of `findKnowledgeBaseByName`: one list call; on
success every returned knowledge base is written into the cache, then the
requested name is looked up in the response; a failed list call is caught
and answered with `none`. -/
def refreshKBCache (env : Env) (now : Nat) (st : SyncState) (name : String) :
    Option String × SyncState × List RemoteCall :=
  match env.listKBs with
  | .ok kbs =>
    let cache2 := kbs.foldl (fun c kb => insertA c kb.name (kb.id, now)) st.kbCache
    ((kbs.find? (fun kb => kb.name == name)).map (fun kb => kb.id),
      { st with kbCache := cache2 }, [RemoteCall.listKB])
  | .error _ => (none, st, [RemoteCall.listKB])

/-- `findKnowledgeBaseByName`: answer from the cache when the entry is
younger than `KB_CACHE_TTL`, otherwise issue one list call and repopulate
the whole cache from the response. -/
def findKnowledgeBaseByName (env : Env) (now : Nat) (st : SyncState) (name : String) :
    Option String × SyncState × List RemoteCall :=
  match lookupA st.kbCache name with
  | some entry =>
    if now - entry.2 < KB_CACHE_TTL then (some entry.1, st, [])
    else refreshKBCache env now st name
  | none => refreshKBCache env now st name

/-- `getOrCreateKnowledgeBase`: cached lookup first; on absence one create
call whose new id is cached; a create failure is logged and rethrown. -/
def getOrCreateKnowledgeBase (env : Env) (now : Nat) (st : SyncState) (name : String) :
    Except String String × SyncState × List RemoteCall :=
  match findKnowledgeBaseByName env now st name with
  | (some id, st1, tr1) => (.ok id, st1, tr1)
  | (none, st1, tr1) =>
    match env.createKB name with
    | .ok newId =>
      (.ok newId, { st1 with kbCache := insertA st1.kbCache name (newId, now) },
        tr1 ++ [RemoteCall.createKB name])
    | .error e => (.error e, st1, tr1 ++ [RemoteCall.createKB name])

/-- `removeFileFromKnowledgeBase`: resolve the collection id (an
unresolvable name skips the removal), issue the remove call, and treat a
not-found failure as success; in both success cases the name is filtered out
of the record (which aliases the stored one). -/
def removeFileFromKnowledgeBase (env : Env) (now : Nat) (st : SyncState)
    (kbName : String) (record : FileRecord) :
    Except String Unit × FileRecord × SyncState × List RemoteCall :=
  match findKnowledgeBaseByName env now st kbName with
  | (none, st1, tr1) => (.ok (), record, st1, tr1)
  | (some kbId, st1, tr1) =>
    match env.removeFile kbId record.fileId with
    | .ok _ =>
      (.ok (),
        { record with knowledgeBases := record.knowledgeBases.filter (fun kb => kb != kbName) },
        st1, tr1 ++ [RemoteCall.removeFileReq kbId record.fileId])
    | .error e =>
      if isNotFoundMsg e then
        (.ok (),
          { record with knowledgeBases := record.knowledgeBases.filter (fun kb => kb != kbName) },
          st1, tr1 ++ [RemoteCall.removeFileReq kbId record.fileId])
      else
        (.error e, record, st1, tr1 ++ [RemoteCall.removeFileReq kbId record.fileId])

/-- `addFileToKnowledgeBase`: one add call; every failure — a not-found
response included — is logged and rethrown to the caller. -/
def addFileToKnowledgeBase (env : Env) (kbId fileId : String) :
    Except String Unit × List RemoteCall :=
  match env.addFile kbId fileId with
  | .ok _ => (.ok (), [RemoteCall.addFileReq kbId fileId])
  | .error e => (.error e, [RemoteCall.addFileReq kbId fileId])

/-- One iteration of the removal loop of `removeFileFromAllKnowledgeBases`:
failures are caught and logged and the loop continues with the next name. -/
def removeAllStep (env : Env) (now : Nat)
    (acc : FileRecord × SyncState × List RemoteCall) (kbName : String) :
    FileRecord × SyncState × List RemoteCall :=
  match removeFileFromKnowledgeBase env now acc.2.1 kbName acc.1 with
  | (_, rec2, st2, tr2) => (rec2, st2, acc.2.2 ++ tr2)

/-- `removeFileFromAllKnowledgeBases`: detach from every collection listed
in the record (iterating over a snapshot copy while the record shrinks),
then best-effort delete the remote file, swallowing the delete response. -/
def removeFileFromAllKnowledgeBases (env : Env) (now : Nat) (st : SyncState)
    (record : FileRecord) : FileRecord × SyncState × List RemoteCall :=
  match record.knowledgeBases.foldl (removeAllStep env now) (record, st, []) with
  | (rec2, st2, tr2) => (rec2, st2, tr2 ++ [RemoteCall.deleteFileReq rec2.fileId])

/-! ## Cache lemmas -/

theorem refreshKBCache_ok (env : Env) (now : Nat) (st : SyncState) (name : String)
    (kbs : List KnowledgeBase) (hlist : env.listKBs = .ok kbs) :
    refreshKBCache env now st name
      = ((kbs.find? (fun kb => kb.name == name)).map (fun kb => kb.id),
         { st with kbCache := kbs.foldl (fun c kb => insertA c kb.name (kb.id, now)) st.kbCache },
         [RemoteCall.listKB]) := by
  unfold refreshKBCache
  rw [hlist]

theorem findKB_miss (env : Env) (now : Nat) (st : SyncState) (name : String)
    (hmiss : ∀ entry, lookupA st.kbCache name = some entry → KB_CACHE_TTL ≤ now - entry.2) :
    findKnowledgeBaseByName env now st name = refreshKBCache env now st name := by
  unfold findKnowledgeBaseByName
  cases hlu : lookupA st.kbCache name with
  | none => rfl
  | some entry =>
    exact if_neg (not_lt.mpr (hmiss entry hlu))

theorem findKB_hit (env : Env) (now : Nat) (st : SyncState) (name id : String)
    (ts : Nat) (hlu : lookupA st.kbCache name = some (id, ts))
    (httl : now - ts < KB_CACHE_TTL) :
    findKnowledgeBaseByName env now st name = (some id, st, []) := by
  unfold findKnowledgeBaseByName
  rw [hlu]
  exact if_pos httl

theorem lookupA_foldl_insert_ne (tl : List KnowledgeBase) (now : Nat) (k : String)
    (hk : ∀ b ∈ tl, b.name ≠ k) (c : List (String × (String × Nat))) :
    lookupA (tl.foldl (fun c kb => insertA c kb.name (kb.id, now)) c) k = lookupA c k := by
  induction tl generalizing c with
  | nil => rfl
  | cons hd tl2 ih =>
    rw [List.foldl_cons, ih (fun b hb => hk b (List.mem_cons_of_mem hd hb))]
    exact lookupA_insertA_ne c hd.name k (hd.id, now) (hk hd (List.mem_cons_self hd tl2))

theorem lookupA_foldl_insert (kbs : List KnowledgeBase) (now : Nat)
    (hnodup : (kbs.map (fun b => b.name)).Nodup) (c0 : List (String × (String × Nat))) :
    ∀ b ∈ kbs, lookupA (kbs.foldl (fun c kb => insertA c kb.name (kb.id, now)) c0) b.name
      = some (b.id, now) := by
  induction kbs generalizing c0 with
  | nil => simp
  | cons hd tl ih =>
    intro b hb
    simp only [List.map_cons, List.nodup_cons] at hnodup
    rw [List.foldl_cons]
    rcases List.mem_cons.mp hb with hb1 | hb2
    · subst hb1
      have hne : ∀ x ∈ tl, x.name ≠ b.name := by
        intro x hx hxe
        exact hnodup.1 (hxe ▸ List.mem_map_of_mem (fun y => y.name) hx)
      rw [lookupA_foldl_insert_ne tl now b.name hne]
      exact lookupA_insertA_self c0 b.name (b.id, now)
    · exact ih hnodup.2 _ b hb2

/-! ## C5, C6, C7 -/

def emptyState : SyncState := { syncState := [], fileMapping := [], kbCache := [], synced := 0 }

def c5Env : Env :=
  { listKBs := .ok []
    createKB := fun _ => .error "API request failed: 400 already exists"
    uploadFile := fun _ _ => .ok "fid"
    addFile := fun _ _ => .ok ()
    removeFile := fun _ _ => .ok ()
    deleteFile := fun _ => .ok () }

/-- C5 counterexample: when the listing does not know the name and the
create call fails with an already-exists error, `getOrCreateKnowledgeBase`
propagates the failure instead of returning the existing id; the trace shows
exactly one list call and one create call — no fallback resolution. -/
theorem c5_get_or_create_counterexample :
    getOrCreateKnowledgeBase c5Env 0 emptyState "Docs"
      = (Except.error "API request failed: 400 already exists", emptyState,
          [RemoteCall.listKB, RemoteCall.createKB "Docs"]) := rfl

/-- C5 (amended): if the cached lookup resolves nothing and the create call
fails — the already-exists race included — `getOrCreateKnowledgeBase`
returns that failure to its caller, issuing no further call beyond the
single create. -/
theorem c5_get_or_create_amended (env : Env) (now : Nat) (st : SyncState)
    (name e : String)
    (hfind : (findKnowledgeBaseByName env now st name).1 = none)
    (hcreate : env.createKB name = .error e) :
    getOrCreateKnowledgeBase env now st name
      = (Except.error e, (findKnowledgeBaseByName env now st name).2.1,
          (findKnowledgeBaseByName env now st name).2.2 ++ [RemoteCall.createKB name]) := by
  unfold getOrCreateKnowledgeBase
  rcases hres : findKnowledgeBaseByName env now st name with ⟨r, st1, tr1⟩
  rw [hres] at hfind
  simp only at hfind
  subst hfind
  rw [hcreate]

/-- Witness for the amended C5 at a concrete environment. -/
theorem c5_get_or_create_amended_witness :
    (findKnowledgeBaseByName c5Env 0 emptyState "Docs").1 = none ∧
    c5Env.createKB "Docs" = Except.error "API request failed: 400 already exists" ∧
    getOrCreateKnowledgeBase c5Env 0 emptyState "Docs"
      = (Except.error "API request failed: 400 already exists",
         (findKnowledgeBaseByName c5Env 0 emptyState "Docs").2.1,
         (findKnowledgeBaseByName c5Env 0 emptyState "Docs").2.2
           ++ [RemoteCall.createKB "Docs"]) :=
  ⟨rfl, rfl, c5_get_or_create_amended c5Env 0 emptyState "Docs" _ rfl rfl⟩

/-- C6: a first resolution with the cache entry absent or stale issues
exactly one list call, and its single successful response repopulates the
cache entry of every collection it returns; a second resolution of the same
name within the TTL window is answered from the cache with zero calls, so
the two together issue exactly one list call. -/
theorem c6_cache_behavior (env env2 : Env) (now now2 : Nat) (st : SyncState)
    (name : String) (kbs : List KnowledgeBase) (kb : KnowledgeBase)
    (hlist : env.listKBs = .ok kbs)
    (hfind : kbs.find? (fun b => b.name == name) = some kb)
    (hnodup : (kbs.map (fun b => b.name)).Nodup)
    (hmiss : ∀ entry, lookupA st.kbCache name = some entry → KB_CACHE_TTL ≤ now - entry.2)
    (httl : now2 - now < KB_CACHE_TTL) :
    (findKnowledgeBaseByName env now st name).1 = some kb.id ∧
    (findKnowledgeBaseByName env now st name).2.2 = [RemoteCall.listKB] ∧
    (∀ b ∈ kbs,
      lookupA (findKnowledgeBaseByName env now st name).2.1.kbCache b.name
        = some (b.id, now)) ∧
    findKnowledgeBaseByName env2 now2 (findKnowledgeBaseByName env now st name).2.1 name
      = (some kb.id, (findKnowledgeBaseByName env now st name).2.1, []) := by
  have h1 : findKnowledgeBaseByName env now st name
      = ((kbs.find? (fun b => b.name == name)).map (fun b => b.id),
         { st with kbCache := kbs.foldl (fun c kb => insertA c kb.name (kb.id, now)) st.kbCache },
         [RemoteCall.listKB]) := by
    rw [findKB_miss env now st name hmiss, refreshKBCache_ok env now st name kbs hlist]
  have hkbmem : kb ∈ kbs := List.mem_of_find?_eq_some hfind
  have hkbname : kb.name = name := by
    have := List.find?_some hfind
    exact beq_iff_eq.mp this
  have hpop : ∀ b ∈ kbs,
      lookupA (kbs.foldl (fun c kb => insertA c kb.name (kb.id, now)) st.kbCache) b.name
        = some (b.id, now) := lookupA_foldl_insert kbs now hnodup st.kbCache
  refine ⟨?_, ?_, ?_, ?_⟩
  · rw [h1, hfind]
    rfl
  · rw [h1]
  · intro b hb
    rw [h1]
    exact hpop b hb
  · rw [h1]
    have hlu : lookupA (kbs.foldl (fun c kb => insertA c kb.name (kb.id, now)) st.kbCache) name
        = some (kb.id, now) := by
      have := hpop kb hkbmem
      rw [hkbname] at this
      exact this
    exact findKB_hit env2 now2 _ name kb.id now hlu httl

def c6Env : Env :=
  { listKBs := .ok [{ id := "kb-1", name := "Docs", description := "d" },
                    { id := "kb-2", name := "Notes", description := "n" }]
    createKB := fun _ => .ok "kb-x"
    uploadFile := fun _ _ => .ok "fid"
    addFile := fun _ _ => .ok ()
    removeFile := fun _ _ => .ok ()
    deleteFile := fun _ => .ok () }

/-- Witness for C6: an empty cache, then a second resolution 1000 ms later. -/
theorem c6_cache_behavior_witness :
    (findKnowledgeBaseByName c6Env 0 emptyState "Docs").1 = some "kb-1" ∧
    (findKnowledgeBaseByName c6Env 0 emptyState "Docs").2.2 = [RemoteCall.listKB] ∧
    findKnowledgeBaseByName c6Env 1000 (findKnowledgeBaseByName c6Env 0 emptyState "Docs").2.1 "Docs"
      = (some "kb-1", (findKnowledgeBaseByName c6Env 0 emptyState "Docs").2.1, []) := by
  have h := c6_cache_behavior c6Env c6Env 0 1000 emptyState "Docs"
    [{ id := "kb-1", name := "Docs", description := "d" },
     { id := "kb-2", name := "Notes", description := "n" }]
    { id := "kb-1", name := "Docs", description := "d" }
    rfl rfl (by decide) (fun entry h => by simp [emptyState, lookupA] at h) (by decide)
  exact ⟨h.1, h.2.1, h.2.2.2⟩

def c7Env : Env :=
  { listKBs := .ok [{ id := "kb-1", name := "Docs", description := "d" }]
    createKB := fun _ => .ok "kb-x"
    uploadFile := fun _ _ => .ok "fid"
    addFile := fun _ _ => .error "API request failed: 404 could not find file"
    removeFile := fun _ _ => .error "API request failed: 404 could not find file"
    deleteFile := fun _ => .ok () }

/-- C7 counterexample: a not-found response to the attach call is not
treated as success — `addFileToKnowledgeBase` rethrows it, so the operation
does not return normally as the claim states for both operations. -/
theorem c7_not_found_counterexample :
    isNotFoundMsg "API request failed: 404 could not find file" = true ∧
    (addFileToKnowledgeBase c7Env "kb-1" "file-1").1
      = Except.error "API request failed: 404 could not find file" :=
  ⟨by decide, rfl⟩

/-- C7 (amended): the detach operation treats a not-found response (message
containing `could not find`, `404` or `400`) as success, returning normally
with the collection name filtered out of the record; the attach operation
instead propagates every failure, not-found included, to its caller — the
per-collection loop there catches and logs it and the pass continues. -/
theorem c7_not_found_amended (env : Env) (now : Nat) (st : SyncState)
    (kbName kbId : String) (record : FileRecord) (e e2 : String)
    (hfind : (findKnowledgeBaseByName env now st kbName).1 = some kbId)
    (hrem : env.removeFile kbId record.fileId = .error e)
    (hnf : isNotFoundMsg e = true)
    (hadd : env.addFile kbId record.fileId = .error e2) :
    (removeFileFromKnowledgeBase env now st kbName record).1 = Except.ok () ∧
    (removeFileFromKnowledgeBase env now st kbName record).2.1
      = { record with
          knowledgeBases := record.knowledgeBases.filter (fun kb => kb != kbName) } ∧
    (addFileToKnowledgeBase env kbId record.fileId).1 = Except.error e2 := by
  have hboth : removeFileFromKnowledgeBase env now st kbName record
      = (Except.ok (),
          { record with
            knowledgeBases := record.knowledgeBases.filter (fun kb => kb != kbName) },
          (findKnowledgeBaseByName env now st kbName).2.1,
          (findKnowledgeBaseByName env now st kbName).2.2
            ++ [RemoteCall.removeFileReq kbId record.fileId]) := by
    unfold removeFileFromKnowledgeBase
    rcases hres : findKnowledgeBaseByName env now st kbName with ⟨r, st1, tr1⟩
    rw [hres] at hfind
    simp only at hfind
    subst hfind
    show (match env.removeFile kbId record.fileId with
      | Except.ok _ =>
        (Except.ok (),
          { record with
            knowledgeBases := record.knowledgeBases.filter (fun kb => kb != kbName) },
          st1, tr1 ++ [RemoteCall.removeFileReq kbId record.fileId])
      | Except.error e =>
        if isNotFoundMsg e then
          (Except.ok (),
            { record with
              knowledgeBases := record.knowledgeBases.filter (fun kb => kb != kbName) },
            st1, tr1 ++ [RemoteCall.removeFileReq kbId record.fileId])
        else
          (Except.error e, record, st1,
            tr1 ++ [RemoteCall.removeFileReq kbId record.fileId])) = _
    rw [hrem]
    simp only [hnf, if_true]
  refine ⟨?_, ?_, ?_⟩
  · rw [hboth]
  · rw [hboth]
  · unfold addFileToKnowledgeBase
    rw [hadd]

/-- Witness for the amended C7 at a concrete environment. -/
theorem c7_not_found_amended_witness :
    ((findKnowledgeBaseByName c7Env 0 emptyState "Docs").1 = some "kb-1") ∧
    (removeFileFromKnowledgeBase c7Env 0 emptyState "Docs"
      { fileId := "file-1", uploadedFilename := "f", contentHash := "h",
        lastModified := 1, knowledgeBases := ["Docs", "Notes"] }).1 = Except.ok () ∧
    (addFileToKnowledgeBase c7Env "kb-1" "file-1").1
      = Except.error "API request failed: 404 could not find file" := by
  have h := c7_not_found_amended c7Env 0 emptyState "Docs" "kb-1"
    { fileId := "file-1", uploadedFilename := "f", contentHash := "h",
      lastModified := 1, knowledgeBases := ["Docs", "Notes"] }
    "API request failed: 404 could not find file"
    "API request failed: 404 could not find file"
    rfl rfl (by decide) rfl
  exact ⟨rfl, h.1, h.2.2⟩

/-! ## Scheduler model (`syncToKnowledgeBase`, the auto-sync timer) -/

structure SyncStatusRec where
  synced : Nat
  total : Nat
  issyncing : Bool
  errorFlag : Bool
deriving DecidableEq

/-- The scheduler-visible plugin state: the single-flight boolean guard and
the progress/error status shown in the status bar. -/
structure SchedState where
  syncMutex : Bool
  status : SyncStatusRec
deriving DecidableEq

def inProgressNotice : String := "Sync already in progress, please wait..."

/-- `syncToKnowledgeBase`: the guard check, the configuration check and the
network-policy check, then the guarded pass — the mutex is set, the body
(`performSyncOperation`, abstracted as a state transformer that may also
throw) runs, and the `finally` clears the mutex whatever the body did.
`allow` and `blockReason` stand for the result of `shouldAllowSync`. -/
def syncToKnowledgeBase (st : SchedState) (apiToken : String) (allow : Bool)
    (blockReason : String) (body : SchedState → SchedState × Option String) :
    SchedState × List String × Option String :=
  if st.syncMutex then (st, [inProgressNotice], none)
  else if apiToken = "" then
    (st, ["Please configure OpenWebUI API token in settings"], none)
  else if !allow then (st, ["Sync blocked: " ++ blockReason], none)
  else
    let st1 := { st with syncMutex := true }
    let res := body st1
    ({ res.1 with syncMutex := false }, [], res.2)

/-- The auto-sync timer callback installed by `startAutoSync`: a mutex check
with only a debug log (no notice), the mobile skip checks
(`shouldSkipAutoSync`, abstracted as `skip`), then `syncToKnowledgeBase`. -/
def autoSyncTick (st : SchedState) (apiToken : String) (allow : Bool)
    (blockReason : String) (skip : Bool)
    (body : SchedState → SchedState × Option String) :
    SchedState × List String × Option String :=
  if st.syncMutex then (st, [], none)
  else if skip then (st, [], none)
  else syncToKnowledgeBase st apiToken allow blockReason body

/-- C4 counterexample: the auto-sync timer firing while a pass holds the
guard is skipped silently — its notice list is empty — so this concurrent
trigger is not rejected with a user-visible rejection, contradicting the
claim for timer triggers. -/
theorem c4_single_flight_counterexample :
    autoSyncTick
      { syncMutex := true,
        status := { synced := 3, total := 5, issyncing := true, errorFlag := false } }
      "token" true "" false (fun s => (s, none))
      = ({ syncMutex := true,
           status := { synced := 3, total := 5, issyncing := true, errorFlag := false } },
         [], none) := rfl

/-- C4 (amended): while the guard is held, a trigger through
`syncToKnowledgeBase` is rejected immediately with the user-visible
in-progress notice, starts no pass (the result is independent of the body),
and leaves the state — progress counters included — untouched; a trigger
through the auto-sync timer is likewise rejected without starting a pass
but silently, with no notice; and when the guard is free at entry it is
released on every exit path of the call, a throwing body included. -/
theorem c4_single_flight_amended (st : SchedState) (apiToken : String)
    (allow : Bool) (blockReason : String)
    (body : SchedState → SchedState × Option String) :
    (st.syncMutex = true →
      syncToKnowledgeBase st apiToken allow blockReason body
        = (st, [inProgressNotice], none)) ∧
    (st.syncMutex = true →
      autoSyncTick st apiToken allow blockReason false body = (st, [], none)) ∧
    (syncToKnowledgeBase { st with syncMutex := false }
        apiToken allow blockReason body).1.syncMutex = false := by
  refine ⟨?_, ?_, ?_⟩
  · intro h
    simp [syncToKnowledgeBase, h]
  · intro h
    simp [autoSyncTick, h]
  · unfold syncToKnowledgeBase
    simp only []
    by_cases h1 : ({ st with syncMutex := false } : SchedState).syncMutex = true
    · simp at h1
    · rw [if_neg h1]
      by_cases h2 : apiToken = ""
      · rw [if_pos h2]
      · rw [if_neg h2]
        by_cases h3 : (!allow) = true
        · rw [if_pos h3]
        · rw [if_neg h3]

/-- Witness for the amended C4: a held guard with live counters, and the
release property for the same state with the guard free. -/
theorem c4_single_flight_amended_witness :
    (syncToKnowledgeBase
        { syncMutex := true,
          status := { synced := 3, total := 5, issyncing := true, errorFlag := false } }
        "token" true "" (fun s => (s, some "boom"))
      = ({ syncMutex := true,
           status := { synced := 3, total := 5, issyncing := true, errorFlag := false } },
         [inProgressNotice], none)) ∧
    (syncToKnowledgeBase
        { syncMutex := false,
          status := { synced := 3, total := 5, issyncing := true, errorFlag := false } }
        "token" true "" (fun s => (s, some "boom"))).1.syncMutex = false := by
  have h := c4_single_flight_amended
    { syncMutex := true,
      status := { synced := 3, total := 5, issyncing := true, errorFlag := false } }
    "token" true "" (fun s => (s, some "boom"))
  exact ⟨h.1 rfl, h.2.2⟩

/-! ## The per-document reconciliation (`syncFileWithStateTracking`) -/

structure FileInfo where
  path : String
  name : String
  content : String
  mtime : Nat
deriving DecidableEq

/-- The mobile-adjusted configuration handed to the sync routine (only
`maxFileSize` is consulted there). -/
structure MobileConfig where
  maxFileSize : Nat
  batchSize : Nat
  maxConcurrent : Nat
deriving DecidableEq

/-- The size gate applied after reading:
`config && config.maxFileSize > 0 && rawContent.length > config.maxFileSize`. -/
def sizeExceeded (config : Option MobileConfig) (raw : String) : Bool :=
  match config with
  | some cfg => decide (0 < cfg.maxFileSize) && decide (cfg.maxFileSize < raw.length)
  | none => false

/-- The read-transform-hash path (taken when the modification time differs
from the recorded one): the mobile size limit may throw, otherwise the
content is link-rewritten and fingerprinted. -/
def hashRead (vault : String) (config : Option MobileConfig) (file : FileInfo) :
    Except String (Bool × String × String) :=
  if sizeExceeded config file.content then .error "File too large"
  else
    let content := processObsidianLinks file.content vault
    .ok (true, content, generateContentHash content)

/-- Lines 646-675 of the sync routine: the mtime fast path reuses the stored
hash without reading (`content` is then the empty string, as in the source);
otherwise the content is read, size-checked, transformed and hashed.
Returns `(timeChanged, content, contentHash)` or throws. -/
def hashPhase (vault : String) (config : Option MobileConfig) (now : Nat)
    (file : FileInfo) (previousRecord : Option FileRecord) :
    Except String (Bool × String × String) :=
  let lastModified := if file.mtime = 0 then now else file.mtime
  match previousRecord with
  | some rec =>
    if rec.lastModified = lastModified then .ok (false, "", rec.contentHash)
    else hashRead vault config file
  | none => hashRead vault config file

/-- One iteration of the `kbsToRemoveFrom` loop (lines 710-718): on success
the progress counter is bumped; failures are caught and logged and the loop
continues. -/
def removeLoopStep (env : Env) (now : Nat)
    (acc : FileRecord × SyncState × List RemoteCall) (kbName : String) :
    FileRecord × SyncState × List RemoteCall :=
  match removeFileFromKnowledgeBase env now acc.2.1 kbName acc.1 with
  | (Except.ok _, rec2, st2, tr2) =>
    (rec2, { st2 with synced := st2.synced + 1 }, acc.2.2 ++ tr2)
  | (Except.error _, rec2, st2, tr2) => (rec2, st2, acc.2.2 ++ tr2)

/-- One iteration of the attach loop over `targetKBs` (lines 759-774):
resolve-or-create the collection, attach, record the membership and bump the
counter; a failure of either call is caught and logged and the loop
continues with the next name. -/
def attachStep (env : Env) (now : Nat)
    (acc : FileRecord × SyncState × List RemoteCall) (kbName : String) :
    FileRecord × SyncState × List RemoteCall :=
  match getOrCreateKnowledgeBase env now acc.2.1 kbName with
  | (Except.error _, st2, tr2) => (acc.1, st2, acc.2.2 ++ tr2)
  | (Except.ok kbId, st2, tr2) =>
    match addFileToKnowledgeBase env kbId acc.1.fileId with
    | (Except.ok _, tr3) =>
      let rec2 := if acc.1.knowledgeBases.contains kbName then acc.1
        else { acc.1 with knowledgeBases := acc.1.knowledgeBases ++ [kbName] }
      (rec2, { st2 with synced := st2.synced + 1 }, acc.2.2 ++ tr2 ++ tr3)
    | (Except.error _, tr3) => (acc.1, st2, acc.2.2 ++ tr2 ++ tr3)

/-- Lines 699-701: when the content changed and a record exists, the old
upload is detached everywhere and deleted; the mutated record is written
back through the alias into `fileMapping`. -/
def retirePhase (env : Env) (now : Nat) (filePath : String)
    (previousRecord : Option FileRecord) (contentChanged : Bool) (st : SyncState) :
    Option FileRecord × SyncState × List RemoteCall :=
  match previousRecord, contentChanged with
  | some rec, true =>
    match removeFileFromAllKnowledgeBases env now st rec with
    | (rec2, st2, tr2) =>
      (some rec2, { st2 with fileMapping := insertA st2.fileMapping filePath rec2 }, tr2)
  | p, _ => (p, st, [])

/-- Lines 709-719: the membership-only removal loop, run only when the
content is unchanged; the record mutations go back through the alias. -/
def removePhase (env : Env) (now : Nat) (filePath : String) (contentChanged : Bool)
    (kbsToRemoveFrom : List String) (prevRec1 : Option FileRecord) (st : SyncState) :
    Option FileRecord × SyncState × List RemoteCall :=
  if contentChanged then (prevRec1, st, [])
  else
    match prevRec1 with
    | some rec =>
      match kbsToRemoveFrom.foldl (removeLoopStep env now) (rec, st, []) with
      | (rec2, st2, tr2) =>
        (some rec2, { st2 with fileMapping := insertA st2.fileMapping filePath rec2 }, tr2)
    | none => (none, st, [])

/-- Lines 721-754: the upload step when content changed or memberships were
added, re-reading the content when the fast path skipped it; otherwise the
existing record is reused.  (A missing record in the reuse branch cannot
occur: unchanged content implies a record exists.) -/
def uploadPhase (env : Env) (vault : String) (file : FileInfo)
    (content contentHash : String) (lastModified : Nat) (uploadNeeded : Bool)
    (prevRec2 : Option FileRecord) : Except String FileRecord × List RemoteCall :=
  if uploadNeeded then
    let content2 := if content = "" then processObsidianLinks file.content vault else content
    let stableFilename := generateStableFilename file.name contentHash
    match env.uploadFile stableFilename content2 with
    | .ok fid =>
      (.ok { fileId := fid, uploadedFilename := stableFilename,
             contentHash := contentHash, lastModified := lastModified,
             knowledgeBases := [] }, [RemoteCall.uploadReq stableFilename content2])
    | .error e => (.error e, [RemoteCall.uploadReq stableFilename content2])
  else
    match prevRec2 with
    | some rec => (.ok rec, [])
    | none => (.error "missing previous record", [])

/-- The body of `syncFileWithStateTracking` past the no-change early return
(lines 698-781).  JS object aliasing — `previousRecord` IS the record stored
in `settings.fileMapping` and the removal helpers mutate it in place — is
modelled by writing the mutated record back into `fileMapping` at each point
the source mutates it, so a later abort leaves those mutations visible, as
in the source.  `sortedCurrent`/`sortedPrev` are the two arrays after the
in-place `sort()` of the comparison line. -/
def syncFileChanged (env : Env) (now : Nat) (vault : String) (file : FileInfo)
    (contentChanged : Bool) (content contentHash : String) (lastModified : Nat)
    (previousRecord : Option FileRecord) (sortedCurrent sortedPrev : List String)
    (st : SyncState) : Except String Unit × SyncState × List RemoteCall :=
  let filePath := file.path
  let p1 := retirePhase env now filePath previousRecord contentChanged st
  let kbsToRemoveFrom := sortedPrev.filter (fun kb => !(sortedCurrent.contains kb))
  let kbsToAddTo := sortedCurrent.filter (fun kb => !(sortedPrev.contains kb))
  let kbsToUpdate :=
    if contentChanged then sortedCurrent.filter (fun kb => sortedPrev.contains kb) else []
  let p2 := removePhase env now filePath contentChanged kbsToRemoveFrom p1.1 p1.2.1
  let uploadNeeded := contentChanged || !kbsToAddTo.isEmpty || !kbsToUpdate.isEmpty
  match uploadPhase env vault file content contentHash lastModified uploadNeeded p2.1 with
  | (.error e, tr2) => (.error e, p2.2.1, p1.2.2 ++ p2.2.2 ++ tr2)
  | (.ok newRecord, tr2) =>
    let targetKBs := if contentChanged then sortedCurrent else kbsToAddTo ++ kbsToUpdate
    match targetKBs.foldl (attachStep env now) (newRecord, p2.2.1, []) with
    | (newRecord2, st3, tr3) =>
      (.ok (),
        { st3 with syncState := insertA st3.syncState filePath sortedCurrent,
                   fileMapping := insertA st3.fileMapping filePath newRecord2 },
        p1.2.2 ++ p2.2.2 ++ tr2 ++ tr3)

/-- The in-place `previousKBs.sort()` of the comparison line, seen through
the alias: when the path has a stored membership array, that array is
replaced by its sorted permutation. -/
def sortSyncWrite (st : SyncState) (p : String) : SyncState :=
  match lookupA st.syncState p with
  | some l => { st with syncState := insertA st.syncState p (sortKBs l) }
  | none => st

/-- `syncFileWithStateTracking` (part_001 lines 644-782): hash phase, change
detection (including the in-place sort of the stored `previousKBs` array,
which the comparison line mutates through the alias), the no-change early
return, then the change-handling body. -/
def syncFileWithStateTracking (env : Env) (now : Nat) (vault : String)
    (config : Option MobileConfig) (file : FileInfo) (currentKBs : List String)
    (st : SyncState) : Except String Unit × SyncState × List RemoteCall :=
  let filePath := file.path
  let lastModified := if file.mtime = 0 then now else file.mtime
  let previousRecord := lookupA st.fileMapping filePath
  match hashPhase vault config now file previousRecord with
  | .error e => (.error e, st, [])
  | .ok res =>
    let timeChanged := res.1
    let content := res.2.1
    let contentHash := res.2.2
    let previousKBs := (lookupA st.syncState filePath).getD []
    let contentChanged : Bool := timeChanged &&
      (match previousRecord with
       | none => true
       | some rec => rec.contentHash != contentHash)
    let sortedCurrent := sortKBs currentKBs
    let sortedPrev := sortKBs previousKBs
    let kbsChanged : Bool := sortedCurrent != sortedPrev
    let stS := sortSyncWrite st filePath
    if !contentChanged && !kbsChanged then (.ok (), stS, [])
    else syncFileChanged env now vault file contentChanged content contentHash
      lastModified previousRecord sortedCurrent sortedPrev stS

/-! ## Record-preservation lemmas -/

theorem removeOne_eq_none (env : Env) (now : Nat) (st : SyncState)
    (kbName : String) (record : FileRecord) (st1 : SyncState) (tr1 : List RemoteCall)
    (hres : findKnowledgeBaseByName env now st kbName = (none, st1, tr1)) :
    removeFileFromKnowledgeBase env now st kbName record
      = (.ok (), record, st1, tr1) := by
  unfold removeFileFromKnowledgeBase
  rw [hres]

theorem removeOne_eq_some (env : Env) (now : Nat) (st : SyncState)
    (kbName : String) (record : FileRecord) (kbId : String) (st1 : SyncState)
    (tr1 : List RemoteCall)
    (hres : findKnowledgeBaseByName env now st kbName = (some kbId, st1, tr1)) :
    removeFileFromKnowledgeBase env now st kbName record
      = match env.removeFile kbId record.fileId with
        | .ok _ =>
          (.ok (),
            { record with
              knowledgeBases := record.knowledgeBases.filter (fun kb => kb != kbName) },
            st1, tr1 ++ [RemoteCall.removeFileReq kbId record.fileId])
        | .error e =>
          if isNotFoundMsg e then
            (.ok (),
              { record with
                knowledgeBases := record.knowledgeBases.filter (fun kb => kb != kbName) },
              st1, tr1 ++ [RemoteCall.removeFileReq kbId record.fileId])
          else
            (.error e, record, st1,
              tr1 ++ [RemoteCall.removeFileReq kbId record.fileId]) := by
  unfold removeFileFromKnowledgeBase
  rw [hres]

theorem removeOne_record_cases (env : Env) (now : Nat) (st : SyncState)
    (kbName : String) (record : FileRecord) :
    (removeFileFromKnowledgeBase env now st kbName record).2.1 = record ∨
    (removeFileFromKnowledgeBase env now st kbName record).2.1
      = { record with
          knowledgeBases := record.knowledgeBases.filter (fun kb => kb != kbName) } := by
  rcases hres : findKnowledgeBaseByName env now st kbName with ⟨r, st1, tr1⟩
  cases r with
  | none =>
    rw [removeOne_eq_none env now st kbName record st1 tr1 hres]
    left; rfl
  | some kbId =>
    rw [removeOne_eq_some env now st kbName record kbId st1 tr1 hres]
    cases hrem : env.removeFile kbId record.fileId with
    | ok _ => right; rfl
    | error e =>
      dsimp only
      by_cases hnf : isNotFoundMsg e = true
      · rw [if_pos hnf]
        right; rfl
      · rw [if_neg hnf]
        left; rfl

theorem removeOne_core (env : Env) (now : Nat) (st : SyncState)
    (kbName : String) (record : FileRecord) :
    (removeFileFromKnowledgeBase env now st kbName record).2.1.fileId = record.fileId ∧
    (removeFileFromKnowledgeBase env now st kbName record).2.1.contentHash = record.contentHash ∧
    (removeFileFromKnowledgeBase env now st kbName record).2.1.lastModified = record.lastModified ∧
    (∀ k ∈ (removeFileFromKnowledgeBase env now st kbName record).2.1.knowledgeBases,
      k ∈ record.knowledgeBases) := by
  rcases removeOne_record_cases env now st kbName record with h | h <;> rw [h]
  · exact ⟨rfl, rfl, rfl, fun k hk => hk⟩
  · exact ⟨rfl, rfl, rfl, fun k hk => List.mem_of_mem_filter hk⟩

theorem removeLoopStep_rec (env : Env) (now : Nat)
    (acc : FileRecord × SyncState × List RemoteCall) (kbName : String) :
    (removeLoopStep env now acc kbName).1
      = (removeFileFromKnowledgeBase env now acc.2.1 kbName acc.1).2.1 := by
  unfold removeLoopStep
  rcases hres : removeFileFromKnowledgeBase env now acc.2.1 kbName acc.1
    with ⟨res, rec2, st2, tr2⟩
  cases res <;> rfl

theorem removeAllStep_rec (env : Env) (now : Nat)
    (acc : FileRecord × SyncState × List RemoteCall) (kbName : String) :
    (removeAllStep env now acc kbName).1
      = (removeFileFromKnowledgeBase env now acc.2.1 kbName acc.1).2.1 := by
  unfold removeAllStep
  rcases hres : removeFileFromKnowledgeBase env now acc.2.1 kbName acc.1
    with ⟨res, rec2, st2, tr2⟩
  rfl

theorem foldl_rm_core (env : Env) (now : Nat)
    (step : FileRecord × SyncState × List RemoteCall → String
      → FileRecord × SyncState × List RemoteCall)
    (hstep : ∀ acc kbName, (step acc kbName).1
      = (removeFileFromKnowledgeBase env now acc.2.1 kbName acc.1).2.1)
    (kbs : List String) (acc : FileRecord × SyncState × List RemoteCall) :
    (kbs.foldl step acc).1.fileId = acc.1.fileId ∧
    (kbs.foldl step acc).1.contentHash = acc.1.contentHash ∧
    (kbs.foldl step acc).1.lastModified = acc.1.lastModified ∧
    (∀ k ∈ (kbs.foldl step acc).1.knowledgeBases, k ∈ acc.1.knowledgeBases) := by
  induction kbs generalizing acc with
  | nil => exact ⟨rfl, rfl, rfl, fun k hk => hk⟩
  | cons kb kbs2 ih =>
    rw [List.foldl_cons]
    obtain ⟨h1, h2, h3, h4⟩ := ih (step acc kb)
    have hrec := hstep acc kb
    obtain ⟨g1, g2, g3, g4⟩ := removeOne_core env now acc.2.1 kb acc.1
    refine ⟨?_, ?_, ?_, ?_⟩
    · rw [h1, hrec, g1]
    · rw [h2, hrec, g2]
    · rw [h3, hrec, g3]
    · intro k hk
      have := h4 k hk
      rw [hrec] at this
      exact g4 k this

theorem removeAll_core (env : Env) (now : Nat) (st : SyncState) (record : FileRecord) :
    (removeFileFromAllKnowledgeBases env now st record).1.fileId = record.fileId ∧
    (removeFileFromAllKnowledgeBases env now st record).1.contentHash = record.contentHash ∧
    (removeFileFromAllKnowledgeBases env now st record).1.lastModified = record.lastModified ∧
    (∀ k ∈ (removeFileFromAllKnowledgeBases env now st record).1.knowledgeBases,
      k ∈ record.knowledgeBases) := by
  unfold removeFileFromAllKnowledgeBases
  rcases hres : record.knowledgeBases.foldl (removeAllStep env now) (record, st, [])
    with ⟨rec2, st2, tr2⟩
  have h := foldl_rm_core env now (removeAllStep env now) (removeAllStep_rec env now)
    record.knowledgeBases (record, st, [])
  rw [hres] at h
  exact h

theorem attachStep_eq_err (env : Env) (now : Nat)
    (acc : FileRecord × SyncState × List RemoteCall) (kbName e : String)
    (st2 : SyncState) (tr2 : List RemoteCall)
    (hres : getOrCreateKnowledgeBase env now acc.2.1 kbName = (.error e, st2, tr2)) :
    attachStep env now acc kbName = (acc.1, st2, acc.2.2 ++ tr2) := by
  unfold attachStep
  rw [hres]

theorem attachStep_eq_ok (env : Env) (now : Nat)
    (acc : FileRecord × SyncState × List RemoteCall) (kbName kbId : String)
    (st2 : SyncState) (tr2 : List RemoteCall)
    (hres : getOrCreateKnowledgeBase env now acc.2.1 kbName = (.ok kbId, st2, tr2)) :
    attachStep env now acc kbName
      = match addFileToKnowledgeBase env kbId acc.1.fileId with
        | (.ok _, tr3) =>
          ((if acc.1.knowledgeBases.contains kbName then acc.1
            else { acc.1 with knowledgeBases := acc.1.knowledgeBases ++ [kbName] }),
           { st2 with synced := st2.synced + 1 }, acc.2.2 ++ tr2 ++ tr3)
        | (.error _, tr3) => (acc.1, st2, acc.2.2 ++ tr2 ++ tr3) := by
  unfold attachStep
  rw [hres]

theorem attachStep_core (env : Env) (now : Nat)
    (acc : FileRecord × SyncState × List RemoteCall) (kbName : String) :
    (attachStep env now acc kbName).1.fileId = acc.1.fileId ∧
    (attachStep env now acc kbName).1.contentHash = acc.1.contentHash ∧
    (attachStep env now acc kbName).1.lastModified = acc.1.lastModified := by
  rcases hres : getOrCreateKnowledgeBase env now acc.2.1 kbName with ⟨res, st2, tr2⟩
  cases res with
  | error e =>
    rw [attachStep_eq_err env now acc kbName e st2 tr2 hres]
    exact ⟨rfl, rfl, rfl⟩
  | ok kbId =>
    rw [attachStep_eq_ok env now acc kbName kbId st2 tr2 hres]
    rcases hadd : addFileToKnowledgeBase env kbId acc.1.fileId with ⟨res2, tr3⟩
    cases res2 with
    | error e => exact ⟨rfl, rfl, rfl⟩
    | ok _ =>
      dsimp only
      by_cases hmem : acc.1.knowledgeBases.contains kbName = true
      · rw [if_pos hmem]
        exact ⟨rfl, rfl, rfl⟩
      · rw [if_neg hmem]
        exact ⟨rfl, rfl, rfl⟩

theorem foldl_attach_core (env : Env) (now : Nat) (kbs : List String)
    (acc : FileRecord × SyncState × List RemoteCall) :
    (kbs.foldl (attachStep env now) acc).1.fileId = acc.1.fileId ∧
    (kbs.foldl (attachStep env now) acc).1.contentHash = acc.1.contentHash ∧
    (kbs.foldl (attachStep env now) acc).1.lastModified = acc.1.lastModified := by
  induction kbs generalizing acc with
  | nil => exact ⟨rfl, rfl, rfl⟩
  | cons kb kbs2 ih =>
    rw [List.foldl_cons]
    obtain ⟨h1, h2, h3⟩ := ih (attachStep env now acc kb)
    obtain ⟨g1, g2, g3⟩ := attachStep_core env now acc kb
    exact ⟨by rw [h1, g1], by rw [h2, g2], by rw [h3, g3]⟩

/-! ## Trace lemmas -/

/-- No upload request occurs in the trace. -/
def noUpload (tr : List RemoteCall) : Prop :=
  ∀ f c, RemoteCall.uploadReq f c ∉ tr

theorem noUpload_nil : noUpload [] := fun f c h => by simp at h

theorem noUpload_append {t1 t2 : List RemoteCall}
    (h1 : noUpload t1) (h2 : noUpload t2) : noUpload (t1 ++ t2) := by
  intro f c h
  rcases List.mem_append.mp h with h | h
  · exact h1 f c h
  · exact h2 f c h

theorem refresh_trace (env : Env) (now : Nat) (st : SyncState) (name : String) :
    (refreshKBCache env now st name).2.2 = [RemoteCall.listKB] := by
  unfold refreshKBCache
  cases h : env.listKBs <;> rfl

theorem findKB_none_eq (env : Env) (now : Nat) (st : SyncState) (name : String)
    (hlu : lookupA st.kbCache name = none) :
    findKnowledgeBaseByName env now st name = refreshKBCache env now st name := by
  unfold findKnowledgeBaseByName
  rw [hlu]

theorem findKB_stale_eq (env : Env) (now : Nat) (st : SyncState) (name : String)
    (entry : String × Nat) (hlu : lookupA st.kbCache name = some entry)
    (h : ¬ (now - entry.2 < KB_CACHE_TTL)) :
    findKnowledgeBaseByName env now st name = refreshKBCache env now st name := by
  unfold findKnowledgeBaseByName
  rw [hlu]
  exact if_neg h

theorem findKB_trace (env : Env) (now : Nat) (st : SyncState) (name : String) :
    (findKnowledgeBaseByName env now st name).2.2 = []
    ∨ (findKnowledgeBaseByName env now st name).2.2 = [RemoteCall.listKB] := by
  cases hlu : lookupA st.kbCache name with
  | none =>
    right
    rw [findKB_none_eq env now st name hlu, refresh_trace]
  | some entry =>
    by_cases httl : now - entry.2 < KB_CACHE_TTL
    · left
      rw [findKB_hit env now st name entry.1 entry.2 hlu httl]
    · right
      rw [findKB_stale_eq env now st name entry hlu httl, refresh_trace]

theorem noUpload_listKB : noUpload [RemoteCall.listKB] := fun f c h => by simp at h

theorem noUpload_removeFileReq (k fid : String) :
    noUpload [RemoteCall.removeFileReq k fid] := fun f c h => by simp at h

theorem noUpload_deleteFileReq (fid : String) :
    noUpload [RemoteCall.deleteFileReq fid] := fun f c h => by simp at h

theorem findKB_trace_noUpload (env : Env) (now : Nat) (st : SyncState) (name : String) :
    noUpload (findKnowledgeBaseByName env now st name).2.2 := by
  rcases findKB_trace env now st name with h | h <;> rw [h]
  · exact noUpload_nil
  · exact noUpload_listKB

theorem removeOne_trace_noUpload (env : Env) (now : Nat) (st : SyncState)
    (kbName : String) (record : FileRecord) :
    noUpload (removeFileFromKnowledgeBase env now st kbName record).2.2.2 := by
  rcases hres : findKnowledgeBaseByName env now st kbName with ⟨r, st1, tr1⟩
  have htr : noUpload tr1 := by
    have h0 := findKB_trace_noUpload env now st kbName
    rw [hres] at h0
    exact h0
  cases r with
  | none =>
    rw [removeOne_eq_none env now st kbName record st1 tr1 hres]
    exact htr
  | some kbId =>
    rw [removeOne_eq_some env now st kbName record kbId st1 tr1 hres]
    cases hrem : env.removeFile kbId record.fileId with
    | ok _ => exact noUpload_append htr (noUpload_removeFileReq _ _)
    | error e =>
      dsimp only
      by_cases hnf : isNotFoundMsg e = true
      · rw [if_pos hnf]
        exact noUpload_append htr (noUpload_removeFileReq _ _)
      · rw [if_neg hnf]
        exact noUpload_append htr (noUpload_removeFileReq _ _)

theorem removeLoopStep_trace (env : Env) (now : Nat)
    (acc : FileRecord × SyncState × List RemoteCall) (kbName : String) :
    (removeLoopStep env now acc kbName).2.2
      = acc.2.2 ++ (removeFileFromKnowledgeBase env now acc.2.1 kbName acc.1).2.2.2 := by
  unfold removeLoopStep
  rcases hres : removeFileFromKnowledgeBase env now acc.2.1 kbName acc.1
    with ⟨res, rec2, st2, tr2⟩
  cases res <;> rfl

theorem foldl_removeLoop_noUpload (env : Env) (now : Nat) (kbs : List String)
    (acc : FileRecord × SyncState × List RemoteCall) (hacc : noUpload acc.2.2) :
    noUpload (kbs.foldl (removeLoopStep env now) acc).2.2 := by
  induction kbs generalizing acc with
  | nil => exact hacc
  | cons kb kbs2 ih =>
    rw [List.foldl_cons]
    apply ih
    rw [removeLoopStep_trace]
    exact noUpload_append hacc (removeOne_trace_noUpload env now acc.2.1 kb acc.1)

/-! ## Hash-phase equations and top-level reductions -/

theorem hashPhase_fast (vault : String) (config : Option MobileConfig) (now : Nat)
    (file : FileInfo) (rec : FileRecord)
    (hlm : rec.lastModified = (if file.mtime = 0 then now else file.mtime)) :
    hashPhase vault config now file (some rec) = .ok (false, "", rec.contentHash) := by
  unfold hashPhase
  dsimp only
  rw [if_pos hlm]

theorem hashPhase_slow (vault : String) (config : Option MobileConfig) (now : Nat)
    (file : FileInfo) (rec : FileRecord)
    (hlm : ¬ rec.lastModified = (if file.mtime = 0 then now else file.mtime)) :
    hashPhase vault config now file (some rec) = hashRead vault config file := by
  unfold hashPhase
  dsimp only
  rw [if_neg hlm]

theorem hashRead_ok (vault : String) (config : Option MobileConfig) (file : FileInfo)
    (h : sizeExceeded config file.content = false) :
    hashRead vault config file
      = .ok (true, processObsidianLinks file.content vault,
          generateContentHash (processObsidianLinks file.content vault)) := by
  unfold hashRead
  simp only [h, Bool.false_eq_true, if_false]

theorem hashRead_err (vault : String) (config : Option MobileConfig) (file : FileInfo)
    (h : sizeExceeded config file.content = true) :
    hashRead vault config file = .error "File too large" := by
  unfold hashRead
  simp only [h, if_true]

theorem syncFile_eq_hashPhase_err (env : Env) (now : Nat) (vault : String)
    (config : Option MobileConfig) (file : FileInfo) (currentKBs : List String)
    (st : SyncState) (e : String)
    (h : hashPhase vault config now file (lookupA st.fileMapping file.path) = .error e) :
    syncFileWithStateTracking env now vault config file currentKBs st = (.error e, st, []) := by
  unfold syncFileWithStateTracking
  dsimp only
  rw [h]

theorem syncFile_eq_ok (env : Env) (now : Nat) (vault : String)
    (config : Option MobileConfig) (file : FileInfo) (currentKBs : List String)
    (st : SyncState) (tc : Bool) (cnt ch : String)
    (h : hashPhase vault config now file (lookupA st.fileMapping file.path)
      = .ok (tc, cnt, ch)) :
    syncFileWithStateTracking env now vault config file currentKBs st
      = (if !(tc && (match lookupA st.fileMapping file.path with
             | none => true
             | some rec => rec.contentHash != ch))
            && !(sortKBs currentKBs != sortKBs ((lookupA st.syncState file.path).getD []))
         then (.ok (), sortSyncWrite st file.path, [])
         else syncFileChanged env now vault file
           (tc && (match lookupA st.fileMapping file.path with
             | none => true
             | some rec => rec.contentHash != ch)) cnt ch
           (if file.mtime = 0 then now else file.mtime) (lookupA st.fileMapping file.path)
           (sortKBs currentKBs) (sortKBs ((lookupA st.syncState file.path).getD []))
           (sortSyncWrite st file.path)) := by
  unfold syncFileWithStateTracking
  dsimp only
  rw [h]

theorem sortSyncWrite_id (st : SyncState) (p : String)
    (hsorted : sortKBs ((lookupA st.syncState p).getD [])
      = (lookupA st.syncState p).getD []) :
    sortSyncWrite st p = st := by
  unfold sortSyncWrite
  cases hlu : lookupA st.syncState p with
  | none => rfl
  | some l =>
    have hl : sortKBs l = l := by
      rw [hlu] at hsorted
      exact hsorted
    show ({ st with syncState := insertA st.syncState p (sortKBs l) } : SyncState) = st
    rw [hl, insertA_self st.syncState p l hlu]

/-- The quiet case of the per-document reconciliation: a document whose
fingerprint matches the stored one (or whose modification time lets the fast
path reuse it) and whose declared membership set matches the stored one (the
stored array being sorted, as every pass stores it) issues no remote call
and leaves the state untouched. -/
theorem syncFile_noop (env : Env) (now : Nat) (vault : String)
    (config : Option MobileConfig) (file : FileInfo) (currentKBs : List String)
    (st : SyncState) (rec : FileRecord)
    (hrec : lookupA st.fileMapping file.path = some rec)
    (hquiet : rec.lastModified = (if file.mtime = 0 then now else file.mtime)
      ∨ generateContentHash (processObsidianLinks file.content vault) = rec.contentHash)
    (hkbs : sortKBs currentKBs = sortKBs ((lookupA st.syncState file.path).getD []))
    (hsorted : sortKBs ((lookupA st.syncState file.path).getD [])
      = (lookupA st.syncState file.path).getD []) :
    (syncFileWithStateTracking env now vault config file currentKBs st).2 = (st, []) := by
  have hkc : (sortKBs currentKBs != sortKBs ((lookupA st.syncState file.path).getD []))
      = false := by
    rw [hkbs]
    simp
  have hsw := sortSyncWrite_id st file.path hsorted
  by_cases hlm : rec.lastModified = (if file.mtime = 0 then now else file.mtime)
  · have hhp : hashPhase vault config now file (lookupA st.fileMapping file.path)
        = .ok (false, "", rec.contentHash) := by
      rw [hrec]
      exact hashPhase_fast vault config now file rec hlm
    rw [syncFile_eq_ok env now vault config file currentKBs st false "" rec.contentHash hhp]
    simp only [Bool.false_and, hkc, Bool.not_false, Bool.and_self, if_true]
    rw [hsw]
  · have hhash : generateContentHash (processObsidianLinks file.content vault)
        = rec.contentHash := by
      rcases hquiet with h | h
      · exact absurd h hlm
      · exact h
    cases hsz : sizeExceeded config file.content with
    | true =>
      have hhp : hashPhase vault config now file (lookupA st.fileMapping file.path)
          = .error "File too large" := by
        rw [hrec, hashPhase_slow vault config now file rec hlm,
          hashRead_err vault config file hsz]
      rw [syncFile_eq_hashPhase_err env now vault config file currentKBs st _ hhp]
    | false =>
      have hhp : hashPhase vault config now file (lookupA st.fileMapping file.path)
          = .ok (true, processObsidianLinks file.content vault, rec.contentHash) := by
        rw [hrec, hashPhase_slow vault config now file rec hlm,
          hashRead_ok vault config file hsz, hhash]
      rw [syncFile_eq_ok env now vault config file currentKBs st true _ rec.contentHash hhp]
      rw [hrec]
      simp only [Bool.true_and, bne_self_eq_false, hkc, Bool.not_false, Bool.and_self,
        if_true]
      rw [hsw]

/-! ## Phase equations -/

theorem retirePhase_not_changed (env : Env) (now : Nat) (filePath : String)
    (prev : Option FileRecord) (st : SyncState) :
    retirePhase env now filePath prev false st = (prev, st, []) := by
  cases prev <;> rfl

theorem retirePhase_cs (env : Env) (now : Nat) (filePath : String)
    (rec : FileRecord) (st : SyncState) (rec2 : FileRecord) (st2 : SyncState)
    (tr2 : List RemoteCall)
    (h : removeFileFromAllKnowledgeBases env now st rec = (rec2, st2, tr2)) :
    retirePhase env now filePath (some rec) true st
      = (some rec2, { st2 with fileMapping := insertA st2.fileMapping filePath rec2 }, tr2) := by
  unfold retirePhase
  show (match removeFileFromAllKnowledgeBases env now st rec with
    | (rec2, st2, tr2) =>
      (some rec2, { st2 with fileMapping := insertA st2.fileMapping filePath rec2 }, tr2))
    = (some rec2, { st2 with fileMapping := insertA st2.fileMapping filePath rec2 }, tr2)
  rw [h]

theorem removePhase_changed (env : Env) (now : Nat) (filePath : String)
    (kbs : List String) (prev : Option FileRecord) (st : SyncState) :
    removePhase env now filePath true kbs prev st = (prev, st, []) := rfl

theorem removePhase_ncs (env : Env) (now : Nat) (filePath : String)
    (kbs : List String) (rec : FileRecord) (st : SyncState) (rec2 : FileRecord)
    (st2 : SyncState) (tr2 : List RemoteCall)
    (hfold : kbs.foldl (removeLoopStep env now) (rec, st, []) = (rec2, st2, tr2)) :
    removePhase env now filePath false kbs (some rec) st
      = (some rec2, { st2 with fileMapping := insertA st2.fileMapping filePath rec2 }, tr2) := by
  unfold removePhase
  rw [if_neg (by simp)]
  show (match kbs.foldl (removeLoopStep env now) (rec, st, []) with
    | (rec2, st2, tr2) =>
      (some rec2, { st2 with fileMapping := insertA st2.fileMapping filePath rec2 }, tr2))
    = (some rec2, { st2 with fileMapping := insertA st2.fileMapping filePath rec2 }, tr2)
  rw [hfold]

theorem uploadPhase_skip (env : Env) (vault : String) (file : FileInfo)
    (cnt ch : String) (lm : Nat) (rec : FileRecord) :
    uploadPhase env vault file cnt ch lm false (some rec) = (.ok rec, []) := rfl

theorem uploadPhase_go_ok (env : Env) (vault : String) (file : FileInfo)
    (cnt ch : String) (lm : Nat) (prev : Option FileRecord) (fid : String)
    (h : env.uploadFile (generateStableFilename file.name ch)
        (if cnt = "" then processObsidianLinks file.content vault else cnt) = .ok fid) :
    uploadPhase env vault file cnt ch lm true prev
      = (.ok { fileId := fid, uploadedFilename := generateStableFilename file.name ch,
               contentHash := ch, lastModified := lm, knowledgeBases := [] },
         [RemoteCall.uploadReq (generateStableFilename file.name ch)
           (if cnt = "" then processObsidianLinks file.content vault else cnt)]) := by
  unfold uploadPhase
  rw [if_pos rfl]
  dsimp only
  rw [h]

theorem uploadPhase_go_err (env : Env) (vault : String) (file : FileInfo)
    (cnt ch : String) (lm : Nat) (prev : Option FileRecord) (e : String)
    (h : env.uploadFile (generateStableFilename file.name ch)
        (if cnt = "" then processObsidianLinks file.content vault else cnt) = .error e) :
    uploadPhase env vault file cnt ch lm true prev
      = (.error e,
         [RemoteCall.uploadReq (generateStableFilename file.name ch)
           (if cnt = "" then processObsidianLinks file.content vault else cnt)]) := by
  unfold uploadPhase
  rw [if_pos rfl]
  dsimp only
  rw [h]

/-- With unchanged content and an existing record the change-handling body
reduces to: membership-only removal loop, then (only when memberships were
added) a fresh upload, then the attach loop over the added names. -/
theorem syncFileChanged_ncs_eq (env : Env) (now : Nat) (vault : String) (file : FileInfo)
    (cnt ch : String) (lm : Nat) (rec : FileRecord) (sc sp : List String) (st : SyncState)
    (rec2 : FileRecord) (st2 : SyncState) (tr2 : List RemoteCall)
    (hfold : (sp.filter (fun kb => !(sc.contains kb))).foldl (removeLoopStep env now)
        (rec, st, []) = (rec2, st2, tr2)) :
    syncFileChanged env now vault file false cnt ch lm (some rec) sc sp st
      = (match uploadPhase env vault file cnt ch lm
            (!(sc.filter (fun kb => !(sp.contains kb))).isEmpty) (some rec2) with
         | (.error e, tr3) =>
           (.error e, { st2 with fileMapping := insertA st2.fileMapping file.path rec2 },
            tr2 ++ tr3)
         | (.ok newRecord, tr3) =>
           match (sc.filter (fun kb => !(sp.contains kb))).foldl (attachStep env now)
               (newRecord,
                { st2 with fileMapping := insertA st2.fileMapping file.path rec2 }, []) with
           | (newRecord2, st3, tr4) =>
             (.ok (),
              { st3 with syncState := insertA st3.syncState file.path sc,
                         fileMapping := insertA st3.fileMapping file.path newRecord2 },
              tr2 ++ tr3 ++ tr4)) := by
  unfold syncFileChanged
  dsimp only
  rw [retirePhase_not_changed]
  dsimp only
  rw [removePhase_ncs env now file.path _ rec st rec2 st2 tr2 hfold]
  dsimp only
  simp only [Bool.false_eq_true, if_false, List.isEmpty_nil, Bool.not_true, Bool.or_false,
    Bool.false_or, List.append_nil, List.nil_append]

theorem retirePhase_none (env : Env) (now : Nat) (filePath : String)
    (cc : Bool) (st : SyncState) :
    retirePhase env now filePath none cc st = (none, st, []) := by
  cases cc <;> rfl

theorem removePhase_none (env : Env) (now : Nat) (filePath : String)
    (cc : Bool) (kbs : List String) (st : SyncState) :
    removePhase env now filePath cc kbs none st = (none, st, []) := by
  cases cc <;> rfl

theorem sortSyncWrite_fileMapping (st : SyncState) (p : String) :
    (sortSyncWrite st p).fileMapping = st.fileMapping := by
  unfold sortSyncWrite
  cases lookupA st.syncState p <;> rfl

/-- With changed content and an existing record the body reduces to: detach
everywhere and delete the old upload, then a fresh upload, then the attach
loop over the whole declared set. -/
theorem syncFileChanged_cs_eq (env : Env) (now : Nat) (vault : String) (file : FileInfo)
    (cnt ch : String) (lm : Nat) (rec : FileRecord) (sc sp : List String) (st : SyncState)
    (rec2 : FileRecord) (st2 : SyncState) (tr2 : List RemoteCall)
    (hall : removeFileFromAllKnowledgeBases env now st rec = (rec2, st2, tr2)) :
    syncFileChanged env now vault file true cnt ch lm (some rec) sc sp st
      = (match uploadPhase env vault file cnt ch lm true (some rec2) with
         | (.error e, tr3) =>
           (.error e, { st2 with fileMapping := insertA st2.fileMapping file.path rec2 },
            tr2 ++ tr3)
         | (.ok nr, tr3) =>
           match sc.foldl (attachStep env now)
               (nr, { st2 with fileMapping := insertA st2.fileMapping file.path rec2 }, []) with
           | (nr2, st3, tr4) =>
             (.ok (),
              { st3 with syncState := insertA st3.syncState file.path sc,
                         fileMapping := insertA st3.fileMapping file.path nr2 },
              tr2 ++ tr3 ++ tr4)) := by
  unfold syncFileChanged
  dsimp only
  rw [retirePhase_cs env now file.path rec st rec2 st2 tr2 hall]
  dsimp only
  rw [removePhase_changed]
  dsimp only
  simp only [Bool.true_or, if_pos, List.append_nil, List.nil_append]

/-- With changed content and no prior record: fresh upload then the attach
loop; nothing to detach. -/
theorem syncFileChanged_cs_none_eq (env : Env) (now : Nat) (vault : String)
    (file : FileInfo) (cnt ch : String) (lm : Nat) (sc sp : List String) (st : SyncState) :
    syncFileChanged env now vault file true cnt ch lm none sc sp st
      = (match uploadPhase env vault file cnt ch lm true none with
         | (.error e, tr3) => (.error e, st, tr3)
         | (.ok nr, tr3) =>
           match sc.foldl (attachStep env now) (nr, st, []) with
           | (nr2, st3, tr4) =>
             (.ok (),
              { st3 with syncState := insertA st3.syncState file.path sc,
                         fileMapping := insertA st3.fileMapping file.path nr2 },
              tr3 ++ tr4)) := by
  unfold syncFileChanged
  dsimp only
  rw [retirePhase_none]
  dsimp only
  rw [removePhase_none]
  dsimp only
  simp only [Bool.true_or, if_pos, List.append_nil, List.nil_append]

/-- With unchanged content and no prior record: the upload step runs exactly
when memberships were added, and with no record to reuse it fails otherwise. -/
theorem syncFileChanged_ncs_none_eq (env : Env) (now : Nat) (vault : String)
    (file : FileInfo) (cnt ch : String) (lm : Nat) (sc sp : List String) (st : SyncState) :
    syncFileChanged env now vault file false cnt ch lm none sc sp st
      = (match uploadPhase env vault file cnt ch lm
            (!(sc.filter (fun kb => !(sp.contains kb))).isEmpty) none with
         | (.error e, tr3) => (.error e, st, tr3)
         | (.ok nr, tr3) =>
           match (sc.filter (fun kb => !(sp.contains kb))).foldl (attachStep env now)
               (nr, st, []) with
           | (nr2, st3, tr4) =>
             (.ok (),
              { st3 with syncState := insertA st3.syncState file.path sc,
                         fileMapping := insertA st3.fileMapping file.path nr2 },
              tr3 ++ tr4)) := by
  unfold syncFileChanged
  dsimp only
  rw [retirePhase_none]
  dsimp only
  rw [removePhase_none]
  dsimp only
  simp only [Bool.false_eq_true, if_false, List.isEmpty_nil, Bool.not_true, Bool.or_false,
    Bool.false_or, List.append_nil, List.nil_append]

/-- Membership change by removal only (unchanged content, no added names):
the body succeeds, the stored record keeps the remote id and fingerprint,
the stored membership array becomes the sorted declared set, and no upload
request is issued. -/
theorem syncFileChanged_pure_removal (env : Env) (now : Nat) (vault : String)
    (file : FileInfo) (cnt ch : String) (lm : Nat) (rec : FileRecord)
    (sc sp : List String) (st : SyncState)
    (htoAdd : sc.filter (fun kb => !(sp.contains kb)) = []) :
    (syncFileChanged env now vault file false cnt ch lm (some rec) sc sp st).1 = .ok () ∧
    (∃ r, lookupA (syncFileChanged env now vault file false cnt ch lm
          (some rec) sc sp st).2.1.fileMapping file.path = some r ∧
        r.fileId = rec.fileId ∧ r.contentHash = rec.contentHash) ∧
    lookupA (syncFileChanged env now vault file false cnt ch lm
        (some rec) sc sp st).2.1.syncState file.path = some sc ∧
    noUpload (syncFileChanged env now vault file false cnt ch lm
        (some rec) sc sp st).2.2 := by
  rcases hfold : (sp.filter (fun kb => !(sc.contains kb))).foldl (removeLoopStep env now)
      (rec, st, []) with ⟨rec2, st2, tr2⟩
  have hcore := foldl_rm_core env now (removeLoopStep env now) (removeLoopStep_rec env now)
    (sp.filter (fun kb => !(sc.contains kb))) (rec, st, [])
  rw [hfold] at hcore
  have htr : noUpload tr2 := by
    have h := foldl_removeLoop_noUpload env now (sp.filter (fun kb => !(sc.contains kb)))
      (rec, st, []) noUpload_nil
    rw [hfold] at h
    exact h
  have heq := syncFileChanged_ncs_eq env now vault file cnt ch lm rec sc sp st
    rec2 st2 tr2 hfold
  rw [htoAdd] at heq
  simp only [List.isEmpty_nil, Bool.not_true] at heq
  rw [uploadPhase_skip] at heq
  simp only [List.foldl_nil, List.append_nil] at heq
  rw [heq]
  refine ⟨rfl, ⟨rec2, ?_, hcore.1, hcore.2.1⟩, ?_, htr⟩
  · exact lookupA_insertA_self _ file.path rec2
  · exact lookupA_insertA_self _ file.path sc

/-- Fully reduced form of the unchanged-content body when memberships were
added and the fresh upload fails. -/
theorem syncFileChanged_add_err_eq (env : Env) (now : Nat) (vault : String)
    (file : FileInfo) (cnt ch : String) (lm : Nat) (rec : FileRecord)
    (sc sp : List String) (st : SyncState) (rec2 : FileRecord) (st2 : SyncState)
    (tr2 : List RemoteCall) (k : String) (ks : List String) (e : String)
    (hfold : (sp.filter (fun kb => !(sc.contains kb))).foldl (removeLoopStep env now)
        (rec, st, []) = (rec2, st2, tr2))
    (htoAdd : sc.filter (fun kb => !(sp.contains kb)) = k :: ks)
    (hup : env.uploadFile (generateStableFilename file.name ch)
        (if cnt = "" then processObsidianLinks file.content vault else cnt) = .error e) :
    syncFileChanged env now vault file false cnt ch lm (some rec) sc sp st
      = (.error e, { st2 with fileMapping := insertA st2.fileMapping file.path rec2 },
         tr2 ++ [RemoteCall.uploadReq (generateStableFilename file.name ch)
           (if cnt = "" then processObsidianLinks file.content vault else cnt)]) := by
  rw [syncFileChanged_ncs_eq env now vault file cnt ch lm rec sc sp st rec2 st2 tr2 hfold]
  rw [htoAdd]
  simp only [List.isEmpty_cons, Bool.not_false]
  rw [uploadPhase_go_err env vault file cnt ch lm (some rec2) e hup]

/-- Fully reduced form of the unchanged-content body when memberships were
added and the fresh upload succeeds. -/
theorem syncFileChanged_add_ok_eq (env : Env) (now : Nat) (vault : String)
    (file : FileInfo) (cnt ch : String) (lm : Nat) (rec : FileRecord)
    (sc sp : List String) (st : SyncState) (rec2 : FileRecord) (st2 : SyncState)
    (tr2 : List RemoteCall) (k : String) (ks : List String) (fid : String)
    (nr2 : FileRecord) (st3 : SyncState) (tr4 : List RemoteCall)
    (hfold : (sp.filter (fun kb => !(sc.contains kb))).foldl (removeLoopStep env now)
        (rec, st, []) = (rec2, st2, tr2))
    (htoAdd : sc.filter (fun kb => !(sp.contains kb)) = k :: ks)
    (hup : env.uploadFile (generateStableFilename file.name ch)
        (if cnt = "" then processObsidianLinks file.content vault else cnt) = .ok fid)
    (hatt : (k :: ks).foldl (attachStep env now)
        ({ fileId := fid, uploadedFilename := generateStableFilename file.name ch,
           contentHash := ch, lastModified := lm, knowledgeBases := [] },
         { st2 with fileMapping := insertA st2.fileMapping file.path rec2 }, [])
      = (nr2, st3, tr4)) :
    syncFileChanged env now vault file false cnt ch lm (some rec) sc sp st
      = (.ok (),
         { st3 with syncState := insertA st3.syncState file.path sc,
                    fileMapping := insertA st3.fileMapping file.path nr2 },
         tr2 ++ [RemoteCall.uploadReq (generateStableFilename file.name ch)
           (if cnt = "" then processObsidianLinks file.content vault else cnt)] ++ tr4) := by
  rw [syncFileChanged_ncs_eq env now vault file cnt ch lm rec sc sp st rec2 st2 tr2 hfold]
  rw [htoAdd]
  simp only [List.isEmpty_cons, Bool.not_false]
  rw [uploadPhase_go_ok env vault file cnt ch lm (some rec2) fid hup]
  dsimp only
  rw [hatt]

/-- Membership change that adds at least one name with unchanged content:
the body issues a fresh upload request for the (re-)processed content under
the stable name derived from the recorded fingerprint, and when that upload
succeeds the stored record carries the fresh remote id. -/
theorem syncFileChanged_with_add (env : Env) (now : Nat) (vault : String)
    (file : FileInfo) (cnt ch : String) (lm : Nat) (rec : FileRecord)
    (sc sp : List String) (st : SyncState) (k : String) (ks : List String)
    (hcnt : (if cnt = "" then processObsidianLinks file.content vault else cnt)
      = processObsidianLinks file.content vault)
    (htoAdd : sc.filter (fun kb => !(sp.contains kb)) = k :: ks) :
    RemoteCall.uploadReq (generateStableFilename file.name ch)
        (processObsidianLinks file.content vault)
      ∈ (syncFileChanged env now vault file false cnt ch lm (some rec) sc sp st).2.2 ∧
    (∀ uid, env.uploadFile (generateStableFilename file.name ch)
          (processObsidianLinks file.content vault) = .ok uid →
      (syncFileChanged env now vault file false cnt ch lm (some rec) sc sp st).1
          = .ok () ∧
      ∃ r, lookupA (syncFileChanged env now vault file false cnt ch lm
            (some rec) sc sp st).2.1.fileMapping file.path = some r ∧
          r.fileId = uid) := by
  rcases hfold : (sp.filter (fun kb => !(sc.contains kb))).foldl (removeLoopStep env now)
      (rec, st, []) with ⟨rec2, st2, tr2⟩
  cases hup : env.uploadFile (generateStableFilename file.name ch)
      (processObsidianLinks file.content vault) with
  | error e =>
    have heq := syncFileChanged_add_err_eq env now vault file cnt ch lm rec sc sp st
      rec2 st2 tr2 k ks e hfold htoAdd (by rw [hcnt]; exact hup)
    rw [hcnt] at heq
    rw [heq]
    constructor
    · exact List.mem_append.mpr (Or.inr (List.mem_singleton.mpr rfl))
    · intro uid h
      exact absurd h (by simp)
  | ok fid =>
    rcases hatt : (k :: ks).foldl (attachStep env now)
        ({ fileId := fid, uploadedFilename := generateStableFilename file.name ch,
           contentHash := ch, lastModified := lm, knowledgeBases := [] },
         { st2 with fileMapping := insertA st2.fileMapping file.path rec2 }, [])
      with ⟨nr2, st3, tr4⟩
    have heq := syncFileChanged_add_ok_eq env now vault file cnt ch lm rec sc sp st
      rec2 st2 tr2 k ks fid nr2 st3 tr4 hfold htoAdd (by rw [hcnt]; exact hup) hatt
    rw [hcnt] at heq
    have hcore := foldl_attach_core env now (k :: ks)
      ({ fileId := fid, uploadedFilename := generateStableFilename file.name ch,
         contentHash := ch, lastModified := lm, knowledgeBases := [] },
       { st2 with fileMapping := insertA st2.fileMapping file.path rec2 }, [])
    rw [hatt] at hcore
    rw [heq]
    constructor
    · exact List.mem_append.mpr (Or.inl (List.mem_append.mpr (Or.inr
        (List.mem_singleton.mpr rfl))))
    · intro uid h
      have huid : fid = uid := by
        injection h
      refine ⟨rfl, nr2, lookupA_insertA_self _ file.path nr2, ?_⟩
      rw [hcore.1]
      exact huid

/-- `syncFile_eq_ok` specialized to a present record, with the stored-record
match resolved. -/
theorem syncFile_eq_ok_some (env : Env) (now : Nat) (vault : String)
    (config : Option MobileConfig) (file : FileInfo) (currentKBs : List String)
    (st : SyncState) (rec : FileRecord) (tc : Bool) (cnt ch : String)
    (hrec : lookupA st.fileMapping file.path = some rec)
    (h : hashPhase vault config now file (some rec) = .ok (tc, cnt, ch)) :
    syncFileWithStateTracking env now vault config file currentKBs st
      = (if !(tc && (rec.contentHash != ch))
            && !(sortKBs currentKBs != sortKBs ((lookupA st.syncState file.path).getD []))
         then (.ok (), sortSyncWrite st file.path, [])
         else syncFileChanged env now vault file (tc && (rec.contentHash != ch)) cnt ch
           (if file.mtime = 0 then now else file.mtime) (some rec)
           (sortKBs currentKBs) (sortKBs ((lookupA st.syncState file.path).getD []))
           (sortSyncWrite st file.path)) := by
  rw [syncFile_eq_ok env now vault config file currentKBs st tc cnt ch
    (by rw [hrec]; exact h)]
  rw [hrec]

/-- A document whose content is quiet (mtime fast path or matching
fingerprint) but whose declared membership set differs enters the
change-handling body with `contentChanged = false` and the recorded
fingerprint. -/
theorem syncFile_enter_ncs (env : Env) (now : Nat) (vault : String)
    (config : Option MobileConfig) (file : FileInfo) (currentKBs : List String)
    (st : SyncState) (rec : FileRecord)
    (hrec : lookupA st.fileMapping file.path = some rec)
    (hsize : sizeExceeded config file.content = false)
    (hquiet : rec.lastModified = (if file.mtime = 0 then now else file.mtime)
      ∨ generateContentHash (processObsidianLinks file.content vault) = rec.contentHash)
    (hkbs : ¬ sortKBs currentKBs = sortKBs ((lookupA st.syncState file.path).getD [])) :
    ∃ cnt, (if cnt = "" then processObsidianLinks file.content vault else cnt)
        = processObsidianLinks file.content vault ∧
      syncFileWithStateTracking env now vault config file currentKBs st
        = syncFileChanged env now vault file false cnt rec.contentHash
            (if file.mtime = 0 then now else file.mtime) (some rec)
            (sortKBs currentKBs) (sortKBs ((lookupA st.syncState file.path).getD []))
            (sortSyncWrite st file.path) := by
  have hne : (sortKBs currentKBs
      != sortKBs ((lookupA st.syncState file.path).getD [])) = true :=
    bne_iff_ne.mpr hkbs
  by_cases hlm : rec.lastModified = (if file.mtime = 0 then now else file.mtime)
  · refine ⟨"", if_pos rfl, ?_⟩
    rw [syncFile_eq_ok_some env now vault config file currentKBs st rec false ""
      rec.contentHash hrec (hashPhase_fast vault config now file rec hlm)]
    simp only [Bool.false_and, Bool.not_false, Bool.true_and, hne, Bool.not_true,
      Bool.false_eq_true, if_false]
  · have hh : generateContentHash (processObsidianLinks file.content vault)
        = rec.contentHash := by
      rcases hquiet with h | h
      · exact absurd h hlm
      · exact h
    have hhp : hashPhase vault config now file (some rec)
        = .ok (true, processObsidianLinks file.content vault,
            generateContentHash (processObsidianLinks file.content vault)) := by
      rw [hashPhase_slow vault config now file rec hlm]
      exact hashRead_ok vault config file hsize
    have hbe : (rec.contentHash
        != generateContentHash (processObsidianLinks file.content vault)) = false := by
      rw [hh]
      exact bne_self_eq_false _
    refine ⟨processObsidianLinks file.content vault, ite_self _, ?_⟩
    rw [syncFile_eq_ok_some env now vault config file currentKBs st rec true
      (processObsidianLinks file.content vault)
      (generateContentHash (processObsidianLinks file.content vault)) hrec hhp]
    simp only [hbe, Bool.and_false, Bool.not_false, Bool.true_and, hne, Bool.not_true,
      Bool.false_eq_true, if_false]
    rw [hh]

/-! ## C2: membership-only change -/

def c2Env : Env :=
  { listKBs := .ok [{ id := "kb-a", name := "A", description := "" },
                    { id := "kb-b", name := "B", description := "" }],
    createKB := fun n => .ok ("kb-" ++ n),
    uploadFile := fun _ _ => .ok "fid-2",
    addFile := fun _ _ => .ok (),
    removeFile := fun _ _ => .ok (),
    deleteFile := fun _ => .ok () }

def c2Rec : FileRecord :=
  { fileId := "fid-1", uploadedFilename := "old", contentHash := "h0",
    lastModified := 7, knowledgeBases := ["A"] }

def c2File : FileInfo :=
  { path := "p", name := "note.md", content := "hello", mtime := 7 }

def c2St : SyncState :=
  { syncState := [("p", ["A"])], fileMapping := [("p", c2Rec)], kbCache := [], synced := 0 }

/-- C2 counterexample: a document with unchanged content (the modification
time matches the record, so the fast path reuses the stored fingerprint)
whose declared set changes from `A` to `B` triggers a fresh upload — the
trace contains an upload request — and the stored record afterwards carries
the fresh remote id `fid-2`, not the prior `fid-1`, refuting "performing no
new upload: the remote document id ... after the pass equal those before
the pass". -/
theorem c2_membership_change_counterexample :
    lookupA c2St.fileMapping "p" = some c2Rec ∧ c2Rec.fileId = "fid-1" ∧
    (syncFileWithStateTracking c2Env 5 "V" none c2File ["B"] c2St).2.2
      = [RemoteCall.listKB, RemoteCall.removeFileReq "kb-a" "fid-1",
         RemoteCall.uploadReq "note_h0.md" "hello",
         RemoteCall.addFileReq "kb-b" "fid-2"] ∧
    lookupA (syncFileWithStateTracking c2Env 5 "V" none c2File
        ["B"] c2St).2.1.fileMapping "p"
      = some { fileId := "fid-2", uploadedFilename := "note_h0.md", contentHash := "h0",
               lastModified := 7, knowledgeBases := ["B"] } ∧
    ("fid-2" : String) ≠ "fid-1" := by
  refine ⟨rfl, rfl, ?_, ?_, by decide⟩ <;> decide

/-- C2 (amended): with unchanged content and a changed declared membership
set, the pass detaches from the stored-minus-declared names; when the
declared set adds no name the stored record keeps the remote document id
and fingerprint, the stored membership array becomes the sorted declared
set and no upload request is issued; but when at least one name is added, a
FRESH upload of the link-processed content is issued (refuting the claimed
"no new upload"), and on its success the stored record carries the fresh
remote id. -/
theorem c2_membership_change_amended (env : Env) (now : Nat) (vault : String)
    (config : Option MobileConfig) (file : FileInfo) (currentKBs : List String)
    (st : SyncState) (rec : FileRecord)
    (hrec : lookupA st.fileMapping file.path = some rec)
    (hsize : sizeExceeded config file.content = false)
    (hquiet : rec.lastModified = (if file.mtime = 0 then now else file.mtime)
      ∨ generateContentHash (processObsidianLinks file.content vault) = rec.contentHash)
    (hkbs : ¬ sortKBs currentKBs = sortKBs ((lookupA st.syncState file.path).getD [])) :
    ((sortKBs currentKBs).filter
        (fun kb => !((sortKBs ((lookupA st.syncState file.path).getD [])).contains kb))
          = [] →
      (syncFileWithStateTracking env now vault config file currentKBs st).1 = .ok () ∧
      (∃ r, lookupA (syncFileWithStateTracking env now vault config file currentKBs
            st).2.1.fileMapping file.path = some r ∧
          r.fileId = rec.fileId ∧ r.contentHash = rec.contentHash) ∧
      lookupA (syncFileWithStateTracking env now vault config file currentKBs
          st).2.1.syncState file.path = some (sortKBs currentKBs) ∧
      noUpload (syncFileWithStateTracking env now vault config file currentKBs st).2.2) ∧
    (∀ k ks, (sortKBs currentKBs).filter
        (fun kb => !((sortKBs ((lookupA st.syncState file.path).getD [])).contains kb))
          = k :: ks →
      RemoteCall.uploadReq (generateStableFilename file.name rec.contentHash)
          (processObsidianLinks file.content vault)
        ∈ (syncFileWithStateTracking env now vault config file currentKBs st).2.2 ∧
      (∀ uid, env.uploadFile (generateStableFilename file.name rec.contentHash)
            (processObsidianLinks file.content vault) = .ok uid →
        (syncFileWithStateTracking env now vault config file currentKBs st).1 = .ok () ∧
        ∃ r, lookupA (syncFileWithStateTracking env now vault config file currentKBs
              st).2.1.fileMapping file.path = some r ∧
            r.fileId = uid)) := by
  obtain ⟨cnt, hcnt, heq⟩ := syncFile_enter_ncs env now vault config file currentKBs st
    rec hrec hsize hquiet hkbs
  rw [heq]
  constructor
  · intro htoAdd
    exact syncFileChanged_pure_removal env now vault file cnt rec.contentHash
      (if file.mtime = 0 then now else file.mtime) rec (sortKBs currentKBs)
      (sortKBs ((lookupA st.syncState file.path).getD []))
      (sortSyncWrite st file.path) htoAdd
  · intro k ks htoAdd
    exact syncFileChanged_with_add env now vault file cnt rec.contentHash
      (if file.mtime = 0 then now else file.mtime) rec (sortKBs currentKBs)
      (sortKBs ((lookupA st.syncState file.path).getD []))
      (sortSyncWrite st file.path) k ks hcnt htoAdd

/-- C2 witness: the amended theorem applied to the concrete add-`B` scenario,
with every hypothesis decided. -/
theorem c2_membership_change_amended_witness :
    (lookupA c2St.fileMapping c2File.path = some c2Rec ∧
     sizeExceeded none c2File.content = false ∧
     ¬ sortKBs ["B"] = sortKBs ((lookupA c2St.syncState c2File.path).getD [])) ∧
    (((sortKBs ["B"]).filter
        (fun kb => !((sortKBs ((lookupA c2St.syncState c2File.path).getD [])).contains kb))
          = [] →
      (syncFileWithStateTracking c2Env 5 "V" none c2File ["B"] c2St).1 = .ok () ∧
      (∃ r, lookupA (syncFileWithStateTracking c2Env 5 "V" none c2File ["B"]
            c2St).2.1.fileMapping c2File.path = some r ∧
          r.fileId = c2Rec.fileId ∧ r.contentHash = c2Rec.contentHash) ∧
      lookupA (syncFileWithStateTracking c2Env 5 "V" none c2File ["B"]
          c2St).2.1.syncState c2File.path = some (sortKBs ["B"]) ∧
      noUpload (syncFileWithStateTracking c2Env 5 "V" none c2File ["B"] c2St).2.2) ∧
    (∀ k ks, (sortKBs ["B"]).filter
        (fun kb => !((sortKBs ((lookupA c2St.syncState c2File.path).getD [])).contains kb))
          = k :: ks →
      RemoteCall.uploadReq (generateStableFilename c2File.name c2Rec.contentHash)
          (processObsidianLinks c2File.content "V")
        ∈ (syncFileWithStateTracking c2Env 5 "V" none c2File ["B"] c2St).2.2 ∧
      (∀ uid, c2Env.uploadFile (generateStableFilename c2File.name c2Rec.contentHash)
            (processObsidianLinks c2File.content "V") = .ok uid →
        (syncFileWithStateTracking c2Env 5 "V" none c2File ["B"] c2St).1 = .ok () ∧
        ∃ r, lookupA (syncFileWithStateTracking c2Env 5 "V" none c2File ["B"]
              c2St).2.1.fileMapping c2File.path = some r ∧
            r.fileId = uid))) :=
  ⟨⟨rfl, rfl, by decide⟩,
   c2_membership_change_amended c2Env 5 "V" none c2File ["B"] c2St c2Rec rfl rfl
     (Or.inl (by decide)) (by decide)⟩

/-! ## C3: upload failure -/

def c3Env : Env :=
  { listKBs := .ok [{ id := "kb-a", name := "A", description := "" }],
    createKB := fun n => .ok ("kb-" ++ n),
    uploadFile := fun _ _ => .error "boom",
    addFile := fun _ _ => .ok (),
    removeFile := fun _ _ => .ok (),
    deleteFile := fun _ => .ok () }

def c3Rec : FileRecord :=
  { fileId := "fid-1", uploadedFilename := "old", contentHash := "h0",
    lastModified := 7, knowledgeBases := ["A"] }

def c3File : FileInfo :=
  { path := "p", name := "note.md", content := "hello", mtime := 9 }

def c3St : SyncState :=
  { syncState := [("p", ["A"])], fileMapping := [("p", c3Rec)], kbCache := [], synced := 0 }

/-- C3 counterexample: a document with changed content whose upload fails is
aborted, but its stored record is NOT left exactly equal to its prior value:
before the failing upload the pass has already detached the old upload from
every collection and deleted it remotely, and the aliased record mutations
stay visible — the stored membership list ends empty where it was `[A]`,
refuting "the persisted SyncRecord ... is left exactly equal to its value
before the pass". -/
theorem c3_upload_failure_counterexample :
    (syncFileWithStateTracking c3Env 5 "V" none c3File ["A"] c3St).1 = .error "boom" ∧
    lookupA c3St.fileMapping "p" = some c3Rec ∧ c3Rec.knowledgeBases = ["A"] ∧
    (syncFileWithStateTracking c3Env 5 "V" none c3File ["A"] c3St).2.2
      = [RemoteCall.listKB, RemoteCall.removeFileReq "kb-a" "fid-1",
         RemoteCall.deleteFileReq "fid-1",
         RemoteCall.uploadReq "note_5e918d2.md" "hello"] ∧
    lookupA (syncFileWithStateTracking c3Env 5 "V" none c3File
        ["A"] c3St).2.1.fileMapping "p"
      = some { fileId := "fid-1", uploadedFilename := "old", contentHash := "h0",
               lastModified := 7, knowledgeBases := [] } ∧
    lookupA (syncFileWithStateTracking c3Env 5 "V" none c3File
        ["A"] c3St).2.1.fileMapping "p" ≠ some c3Rec := by
  refine ⟨by rfl, rfl, rfl, ?_, ?_, by decide⟩ <;> decide

/-- C3 (amended): when the content changed and the upload step fails, the
error aborts the document's reconciliation and is returned; the stored
record still carries the prior remote id, fingerprint and modification
time, and its membership list is a (possibly strict) subset of the prior
one — the pass has already detached and deleted the old upload through the
aliased record, so the record is NOT left exactly equal to its prior
value. -/
theorem c3_upload_failure_amended (env : Env) (now : Nat) (vault : String)
    (config : Option MobileConfig) (file : FileInfo) (currentKBs : List String)
    (st : SyncState) (rec : FileRecord) (e : String)
    (hrec : lookupA st.fileMapping file.path = some rec)
    (hsize : sizeExceeded config file.content = false)
    (hlm : ¬ rec.lastModified = (if file.mtime = 0 then now else file.mtime))
    (hhash : ¬ generateContentHash (processObsidianLinks file.content vault)
      = rec.contentHash)
    (hup : ∀ f c, env.uploadFile f c = .error e) :
    (syncFileWithStateTracking env now vault config file currentKBs st).1 = .error e ∧
    ∃ r, lookupA (syncFileWithStateTracking env now vault config file currentKBs
          st).2.1.fileMapping file.path = some r ∧
        r.fileId = rec.fileId ∧ r.contentHash = rec.contentHash ∧
        r.lastModified = rec.lastModified ∧
        (∀ k, k ∈ r.knowledgeBases → k ∈ rec.knowledgeBases) := by
  have hhp : hashPhase vault config now file (some rec)
      = .ok (true, processObsidianLinks file.content vault,
          generateContentHash (processObsidianLinks file.content vault)) := by
    rw [hashPhase_slow vault config now file rec hlm]
    exact hashRead_ok vault config file hsize
  have hbe : (rec.contentHash
      != generateContentHash (processObsidianLinks file.content vault)) = true :=
    bne_iff_ne.mpr (fun h => hhash h.symm)
  rw [syncFile_eq_ok_some env now vault config file currentKBs st rec true
    (processObsidianLinks file.content vault)
    (generateContentHash (processObsidianLinks file.content vault)) hrec hhp]
  simp only [hbe, Bool.and_true, Bool.true_and, Bool.not_true, Bool.false_and,
    Bool.false_eq_true, if_false]
  rcases hall : removeFileFromAllKnowledgeBases env now (sortSyncWrite st file.path) rec
    with ⟨rec2, st2, tr2⟩
  have hcore := removeAll_core env now (sortSyncWrite st file.path) rec
  rw [hall] at hcore
  rw [syncFileChanged_cs_eq env now vault file
    (processObsidianLinks file.content vault)
    (generateContentHash (processObsidianLinks file.content vault))
    (if file.mtime = 0 then now else file.mtime) rec
    (sortKBs currentKBs) (sortKBs ((lookupA st.syncState file.path).getD []))
    (sortSyncWrite st file.path) rec2 st2 tr2 hall]
  rw [uploadPhase_go_err env vault file
    (processObsidianLinks file.content vault)
    (generateContentHash (processObsidianLinks file.content vault))
    (if file.mtime = 0 then now else file.mtime) (some rec2) e (hup _ _)]
  exact ⟨rfl, rec2, lookupA_insertA_self _ file.path rec2,
    hcore.1, hcore.2.1, hcore.2.2.1, fun k hk => hcore.2.2.2 k hk⟩

/-- C3 witness: the amended theorem applied to the concrete failing-upload
scenario, with every hypothesis decided. -/
theorem c3_upload_failure_amended_witness :
    (lookupA c3St.fileMapping c3File.path = some c3Rec ∧
     sizeExceeded none c3File.content = false ∧
     ¬ c3Rec.lastModified = (if c3File.mtime = 0 then 5 else c3File.mtime) ∧
     ¬ generateContentHash (processObsidianLinks c3File.content "V") = c3Rec.contentHash) ∧
    ((syncFileWithStateTracking c3Env 5 "V" none c3File ["A"] c3St).1 = .error "boom" ∧
     ∃ r, lookupA (syncFileWithStateTracking c3Env 5 "V" none c3File ["A"]
           c3St).2.1.fileMapping c3File.path = some r ∧
         r.fileId = c3Rec.fileId ∧ r.contentHash = c3Rec.contentHash ∧
         r.lastModified = c3Rec.lastModified ∧
         (∀ k, k ∈ r.knowledgeBases → k ∈ c3Rec.knowledgeBases)) :=
  ⟨⟨rfl, rfl, by decide, by decide⟩,
   c3_upload_failure_amended c3Env 5 "V" none c3File ["A"] c3St c3Rec "boom" rfl rfl
     (by decide) (by decide) (fun f c => rfl)⟩

/-! ## Remaining reduced forms of the change-handling body -/

theorem uploadPhase_skip_none (env : Env) (vault : String) (file : FileInfo)
    (cnt ch : String) (lm : Nat) :
    uploadPhase env vault file cnt ch lm false none
      = (.error "missing previous record", []) := rfl

theorem syncFileChanged_cs_err_eq (env : Env) (now : Nat) (vault : String)
    (file : FileInfo) (cnt ch : String) (lm : Nat) (rec : FileRecord)
    (sc sp : List String) (st : SyncState) (rec2 : FileRecord) (st2 : SyncState)
    (tr2 : List RemoteCall) (e : String)
    (hall : removeFileFromAllKnowledgeBases env now st rec = (rec2, st2, tr2))
    (hup : env.uploadFile (generateStableFilename file.name ch)
        (if cnt = "" then processObsidianLinks file.content vault else cnt) = .error e) :
    syncFileChanged env now vault file true cnt ch lm (some rec) sc sp st
      = (.error e, { st2 with fileMapping := insertA st2.fileMapping file.path rec2 },
         tr2 ++ [RemoteCall.uploadReq (generateStableFilename file.name ch)
           (if cnt = "" then processObsidianLinks file.content vault else cnt)]) := by
  rw [syncFileChanged_cs_eq env now vault file cnt ch lm rec sc sp st rec2 st2 tr2 hall]
  rw [uploadPhase_go_err env vault file cnt ch lm (some rec2) e hup]

theorem syncFileChanged_cs_ok_eq (env : Env) (now : Nat) (vault : String)
    (file : FileInfo) (cnt ch : String) (lm : Nat) (rec : FileRecord)
    (sc sp : List String) (st : SyncState) (rec2 : FileRecord) (st2 : SyncState)
    (tr2 : List RemoteCall) (fid : String) (nr2 : FileRecord) (st3 : SyncState)
    (tr4 : List RemoteCall)
    (hall : removeFileFromAllKnowledgeBases env now st rec = (rec2, st2, tr2))
    (hup : env.uploadFile (generateStableFilename file.name ch)
        (if cnt = "" then processObsidianLinks file.content vault else cnt) = .ok fid)
    (hatt : sc.foldl (attachStep env now)
        ({ fileId := fid, uploadedFilename := generateStableFilename file.name ch,
           contentHash := ch, lastModified := lm, knowledgeBases := [] },
         { st2 with fileMapping := insertA st2.fileMapping file.path rec2 }, [])
      = (nr2, st3, tr4)) :
    syncFileChanged env now vault file true cnt ch lm (some rec) sc sp st
      = (.ok (),
         { st3 with syncState := insertA st3.syncState file.path sc,
                    fileMapping := insertA st3.fileMapping file.path nr2 },
         tr2 ++ [RemoteCall.uploadReq (generateStableFilename file.name ch)
           (if cnt = "" then processObsidianLinks file.content vault else cnt)] ++ tr4) := by
  rw [syncFileChanged_cs_eq env now vault file cnt ch lm rec sc sp st rec2 st2 tr2 hall]
  rw [uploadPhase_go_ok env vault file cnt ch lm (some rec2) fid hup]
  dsimp only
  rw [hatt]

theorem syncFileChanged_cs_none_err_eq (env : Env) (now : Nat) (vault : String)
    (file : FileInfo) (cnt ch : String) (lm : Nat) (sc sp : List String)
    (st : SyncState) (e : String)
    (hup : env.uploadFile (generateStableFilename file.name ch)
        (if cnt = "" then processObsidianLinks file.content vault else cnt) = .error e) :
    syncFileChanged env now vault file true cnt ch lm none sc sp st
      = (.error e, st,
         [RemoteCall.uploadReq (generateStableFilename file.name ch)
           (if cnt = "" then processObsidianLinks file.content vault else cnt)]) := by
  rw [syncFileChanged_cs_none_eq env now vault file cnt ch lm sc sp st]
  rw [uploadPhase_go_err env vault file cnt ch lm none e hup]

theorem syncFileChanged_cs_none_ok_eq (env : Env) (now : Nat) (vault : String)
    (file : FileInfo) (cnt ch : String) (lm : Nat) (sc sp : List String)
    (st : SyncState) (fid : String) (nr2 : FileRecord) (st3 : SyncState)
    (tr4 : List RemoteCall)
    (hup : env.uploadFile (generateStableFilename file.name ch)
        (if cnt = "" then processObsidianLinks file.content vault else cnt) = .ok fid)
    (hatt : sc.foldl (attachStep env now)
        ({ fileId := fid, uploadedFilename := generateStableFilename file.name ch,
           contentHash := ch, lastModified := lm, knowledgeBases := [] }, st, [])
      = (nr2, st3, tr4)) :
    syncFileChanged env now vault file true cnt ch lm none sc sp st
      = (.ok (),
         { st3 with syncState := insertA st3.syncState file.path sc,
                    fileMapping := insertA st3.fileMapping file.path nr2 },
         [RemoteCall.uploadReq (generateStableFilename file.name ch)
           (if cnt = "" then processObsidianLinks file.content vault else cnt)] ++ tr4) := by
  rw [syncFileChanged_cs_none_eq env now vault file cnt ch lm sc sp st]
  rw [uploadPhase_go_ok env vault file cnt ch lm none fid hup]
  dsimp only
  rw [hatt]

theorem syncFileChanged_ncs_noadd_eq (env : Env) (now : Nat) (vault : String)
    (file : FileInfo) (cnt ch : String) (lm : Nat) (rec : FileRecord)
    (sc sp : List String) (st : SyncState) (rec2 : FileRecord) (st2 : SyncState)
    (tr2 : List RemoteCall)
    (hfold : (sp.filter (fun kb => !(sc.contains kb))).foldl (removeLoopStep env now)
        (rec, st, []) = (rec2, st2, tr2))
    (htoAdd : sc.filter (fun kb => !(sp.contains kb)) = []) :
    syncFileChanged env now vault file false cnt ch lm (some rec) sc sp st
      = (.ok (),
         { st2 with
             syncState := insertA st2.syncState file.path sc,
             fileMapping := insertA (insertA st2.fileMapping file.path rec2)
               file.path rec2 },
         tr2) := by
  rw [syncFileChanged_ncs_eq env now vault file cnt ch lm rec sc sp st rec2 st2 tr2 hfold]
  rw [htoAdd]
  simp only [List.isEmpty_nil, Bool.not_true]
  rw [uploadPhase_skip]
  simp only [List.foldl_nil, List.append_nil]

theorem syncFileChanged_ncs_none_noadd_eq (env : Env) (now : Nat) (vault : String)
    (file : FileInfo) (cnt ch : String) (lm : Nat) (sc sp : List String)
    (st : SyncState)
    (htoAdd : sc.filter (fun kb => !(sp.contains kb)) = []) :
    syncFileChanged env now vault file false cnt ch lm none sc sp st
      = (.error "missing previous record", st, []) := by
  rw [syncFileChanged_ncs_none_eq env now vault file cnt ch lm sc sp st]
  rw [htoAdd]
  simp only [List.isEmpty_nil, Bool.not_true]
  rw [uploadPhase_skip_none]

theorem syncFileChanged_ncs_none_add_err_eq (env : Env) (now : Nat) (vault : String)
    (file : FileInfo) (cnt ch : String) (lm : Nat) (sc sp : List String)
    (st : SyncState) (k : String) (ks : List String) (e : String)
    (htoAdd : sc.filter (fun kb => !(sp.contains kb)) = k :: ks)
    (hup : env.uploadFile (generateStableFilename file.name ch)
        (if cnt = "" then processObsidianLinks file.content vault else cnt) = .error e) :
    syncFileChanged env now vault file false cnt ch lm none sc sp st
      = (.error e, st,
         [RemoteCall.uploadReq (generateStableFilename file.name ch)
           (if cnt = "" then processObsidianLinks file.content vault else cnt)]) := by
  rw [syncFileChanged_ncs_none_eq env now vault file cnt ch lm sc sp st]
  rw [htoAdd]
  simp only [List.isEmpty_cons, Bool.not_false]
  rw [uploadPhase_go_err env vault file cnt ch lm none e hup]

theorem syncFileChanged_ncs_none_add_ok_eq (env : Env) (now : Nat) (vault : String)
    (file : FileInfo) (cnt ch : String) (lm : Nat) (sc sp : List String)
    (st : SyncState) (k : String) (ks : List String) (fid : String)
    (nr2 : FileRecord) (st3 : SyncState) (tr4 : List RemoteCall)
    (htoAdd : sc.filter (fun kb => !(sp.contains kb)) = k :: ks)
    (hup : env.uploadFile (generateStableFilename file.name ch)
        (if cnt = "" then processObsidianLinks file.content vault else cnt) = .ok fid)
    (hatt : (k :: ks).foldl (attachStep env now)
        ({ fileId := fid, uploadedFilename := generateStableFilename file.name ch,
           contentHash := ch, lastModified := lm, knowledgeBases := [] }, st, [])
      = (nr2, st3, tr4)) :
    syncFileChanged env now vault file false cnt ch lm none sc sp st
      = (.ok (),
         { st3 with syncState := insertA st3.syncState file.path sc,
                    fileMapping := insertA st3.fileMapping file.path nr2 },
         [RemoteCall.uploadReq (generateStableFilename file.name ch)
           (if cnt = "" then processObsidianLinks file.content vault else cnt)] ++ tr4) := by
  rw [syncFileChanged_ncs_none_eq env now vault file cnt ch lm sc sp st]
  rw [htoAdd]
  simp only [List.isEmpty_cons, Bool.not_false]
  rw [uploadPhase_go_ok env vault file cnt ch lm none fid hup]
  dsimp only
  rw [hatt]

/-! ## Inversion lemmas for a successful reconciliation -/

theorem hashRead_ok_inv (vault : String) (config : Option MobileConfig)
    (file : FileInfo) (tc : Bool) (cnt ch : String)
    (h : hashRead vault config file = .ok (tc, cnt, ch)) :
    tc = true ∧ cnt = processObsidianLinks file.content vault ∧
    ch = generateContentHash (processObsidianLinks file.content vault) := by
  cases hsz : sizeExceeded config file.content with
  | true =>
    rw [hashRead_err vault config file hsz] at h
    exact absurd h (by simp)
  | false =>
    rw [hashRead_ok vault config file hsz] at h
    injection h with h2
    simp only [Prod.mk.injEq] at h2
    exact ⟨h2.1.symm, h2.2.1.symm, h2.2.2.symm⟩

theorem hashPhase_none (vault : String) (config : Option MobileConfig) (now : Nat)
    (file : FileInfo) :
    hashPhase vault config now file none = hashRead vault config file := rfl

theorem hashPhase_ok_inv (vault : String) (config : Option MobileConfig) (now : Nat)
    (file : FileInfo) (rec : FileRecord) (tc : Bool) (cnt ch : String)
    (h : hashPhase vault config now file (some rec) = .ok (tc, cnt, ch)) :
    (tc = false ∧ rec.lastModified = (if file.mtime = 0 then now else file.mtime)
      ∧ ch = rec.contentHash) ∨
    (tc = true
      ∧ ch = generateContentHash (processObsidianLinks file.content vault)) := by
  by_cases hlm : rec.lastModified = (if file.mtime = 0 then now else file.mtime)
  · rw [hashPhase_fast vault config now file rec hlm] at h
    injection h with h2
    simp only [Prod.mk.injEq] at h2
    exact Or.inl ⟨h2.1.symm, hlm, h2.2.2.symm⟩
  · rw [hashPhase_slow vault config now file rec hlm] at h
    obtain ⟨h1, _, h3⟩ := hashRead_ok_inv vault config file tc cnt ch h
    exact Or.inr ⟨h1, h3⟩

theorem sortSyncWrite_syncState (st : SyncState) (p : String) :
    lookupA (sortSyncWrite st p).syncState p = (lookupA st.syncState p).map sortKBs := by
  unfold sortSyncWrite
  cases h : lookupA st.syncState p with
  | none =>
    show lookupA st.syncState p = (none : Option (List String)).map sortKBs
    rw [h]
    rfl
  | some l =>
    show lookupA (insertA st.syncState p (sortKBs l)) p = (some l).map sortKBs
    rw [lookupA_insertA_self]
    rfl

theorem uploadPhase_ok_inv (env : Env) (vault : String) (file : FileInfo)
    (cnt ch : String) (lm : Nat) (un : Bool) (prev : Option FileRecord)
    (nr : FileRecord) (tr : List RemoteCall)
    (h : uploadPhase env vault file cnt ch lm un prev = (.ok nr, tr)) :
    (nr.lastModified = lm ∧ nr.contentHash = ch) ∨ (un = false ∧ prev = some nr) := by
  cases un with
  | false =>
    cases prev with
    | none =>
      rw [uploadPhase_skip_none] at h
      exact absurd (congrArg Prod.fst h) (by simp)
    | some rec =>
      rw [uploadPhase_skip] at h
      have h1 : Except.ok (ε := String) rec = .ok nr := congrArg Prod.fst h
      injection h1 with h2
      exact Or.inr ⟨rfl, by rw [h2]⟩
  | true =>
    cases hu : env.uploadFile (generateStableFilename file.name ch)
        (if cnt = "" then processObsidianLinks file.content vault else cnt) with
    | error e =>
      rw [uploadPhase_go_err env vault file cnt ch lm prev e hu] at h
      exact absurd (congrArg Prod.fst h) (by simp)
    | ok fid =>
      rw [uploadPhase_go_ok env vault file cnt ch lm prev fid hu] at h
      have h1 : Except.ok (ε := String)
          { fileId := fid, uploadedFilename := generateStableFilename file.name ch,
            contentHash := ch, lastModified := lm, knowledgeBases := ([] : List String) }
          = .ok nr := congrArg Prod.fst h
      injection h1 with h2
      rw [← h2]
      exact Or.inl ⟨rfl, rfl⟩

/-- A successful run of the change-handling body stores a record under the
file path and commits the sorted declared set; the stored record either
came from the fresh upload (then it carries the computed modification time
and fingerprint) or — only possible with unchanged content — is the prior
record with its modification time and fingerprint intact. -/
theorem syncFileChanged_ok_inv (env : Env) (now : Nat) (vault : String)
    (file : FileInfo) (cc : Bool) (cnt ch : String) (lm : Nat)
    (prev : Option FileRecord) (sc sp : List String) (st : SyncState)
    (hok : (syncFileChanged env now vault file cc cnt ch lm prev sc sp st).1 = .ok ()) :
    ∃ r, lookupA (syncFileChanged env now vault file cc cnt ch lm
          prev sc sp st).2.1.fileMapping file.path = some r ∧
      lookupA (syncFileChanged env now vault file cc cnt ch lm
          prev sc sp st).2.1.syncState file.path = some sc ∧
      ((r.lastModified = lm ∧ r.contentHash = ch) ∨
       (cc = false ∧ ∃ p0, prev = some p0 ∧ r.lastModified = p0.lastModified
         ∧ r.contentHash = p0.contentHash)) := by
  cases cc with
  | true =>
    cases prev with
    | none =>
      cases hu : env.uploadFile (generateStableFilename file.name ch)
          (if cnt = "" then processObsidianLinks file.content vault else cnt) with
      | error e =>
        rw [syncFileChanged_cs_none_err_eq env now vault file cnt ch lm sc sp st e hu]
          at hok
        exact absurd hok (by simp)
      | ok fid =>
        rcases hatt : sc.foldl (attachStep env now)
            ({ fileId := fid, uploadedFilename := generateStableFilename file.name ch,
               contentHash := ch, lastModified := lm, knowledgeBases := [] }, st, [])
          with ⟨nr2, st3, tr4⟩
        have hcore := foldl_attach_core env now sc
          ({ fileId := fid, uploadedFilename := generateStableFilename file.name ch,
             contentHash := ch, lastModified := lm, knowledgeBases := [] }, st, [])
        rw [hatt] at hcore
        rw [syncFileChanged_cs_none_ok_eq env now vault file cnt ch lm sc sp st
          fid nr2 st3 tr4 hu hatt]
        exact ⟨nr2, lookupA_insertA_self _ file.path nr2,
          lookupA_insertA_self _ file.path sc, Or.inl ⟨hcore.2.2, hcore.2.1⟩⟩
    | some rec =>
      rcases hall : removeFileFromAllKnowledgeBases env now st rec with ⟨rec2, st2, tr2⟩
      cases hu : env.uploadFile (generateStableFilename file.name ch)
          (if cnt = "" then processObsidianLinks file.content vault else cnt) with
      | error e =>
        rw [syncFileChanged_cs_err_eq env now vault file cnt ch lm rec sc sp st
          rec2 st2 tr2 e hall hu] at hok
        exact absurd hok (by simp)
      | ok fid =>
        rcases hatt : sc.foldl (attachStep env now)
            ({ fileId := fid, uploadedFilename := generateStableFilename file.name ch,
               contentHash := ch, lastModified := lm, knowledgeBases := [] },
             { st2 with fileMapping := insertA st2.fileMapping file.path rec2 }, [])
          with ⟨nr2, st3, tr4⟩
        have hcore := foldl_attach_core env now sc
          ({ fileId := fid, uploadedFilename := generateStableFilename file.name ch,
             contentHash := ch, lastModified := lm, knowledgeBases := [] },
           { st2 with fileMapping := insertA st2.fileMapping file.path rec2 }, [])
        rw [hatt] at hcore
        rw [syncFileChanged_cs_ok_eq env now vault file cnt ch lm rec sc sp st
          rec2 st2 tr2 fid nr2 st3 tr4 hall hu hatt]
        exact ⟨nr2, lookupA_insertA_self _ file.path nr2,
          lookupA_insertA_self _ file.path sc, Or.inl ⟨hcore.2.2, hcore.2.1⟩⟩
  | false =>
    cases prev with
    | none =>
      cases htoAdd : sc.filter (fun kb => !(sp.contains kb)) with
      | nil =>
        rw [syncFileChanged_ncs_none_noadd_eq env now vault file cnt ch lm sc sp st
          htoAdd] at hok
        exact absurd hok (by simp)
      | cons k ks =>
        cases hu : env.uploadFile (generateStableFilename file.name ch)
            (if cnt = "" then processObsidianLinks file.content vault else cnt) with
        | error e =>
          rw [syncFileChanged_ncs_none_add_err_eq env now vault file cnt ch lm sc sp st
            k ks e htoAdd hu] at hok
          exact absurd hok (by simp)
        | ok fid =>
          rcases hatt : (k :: ks).foldl (attachStep env now)
              ({ fileId := fid, uploadedFilename := generateStableFilename file.name ch,
                 contentHash := ch, lastModified := lm, knowledgeBases := [] }, st, [])
            with ⟨nr2, st3, tr4⟩
          have hcore := foldl_attach_core env now (k :: ks)
            ({ fileId := fid, uploadedFilename := generateStableFilename file.name ch,
               contentHash := ch, lastModified := lm, knowledgeBases := [] }, st, [])
          rw [hatt] at hcore
          rw [syncFileChanged_ncs_none_add_ok_eq env now vault file cnt ch lm sc sp st
            k ks fid nr2 st3 tr4 htoAdd hu hatt]
          exact ⟨nr2, lookupA_insertA_self _ file.path nr2,
            lookupA_insertA_self _ file.path sc, Or.inl ⟨hcore.2.2, hcore.2.1⟩⟩
    | some rec =>
      rcases hfold : (sp.filter (fun kb => !(sc.contains kb))).foldl
          (removeLoopStep env now) (rec, st, []) with ⟨rec2, st2, tr2⟩
      have hrm := foldl_rm_core env now (removeLoopStep env now)
        (removeLoopStep_rec env now) (sp.filter (fun kb => !(sc.contains kb)))
        (rec, st, [])
      rw [hfold] at hrm
      cases htoAdd : sc.filter (fun kb => !(sp.contains kb)) with
      | nil =>
        rw [syncFileChanged_ncs_noadd_eq env now vault file cnt ch lm rec sc sp st
          rec2 st2 tr2 hfold htoAdd]
        exact ⟨rec2, lookupA_insertA_self _ file.path rec2,
          lookupA_insertA_self _ file.path sc,
          Or.inr ⟨rfl, rec, rfl, hrm.2.2.1, hrm.2.1⟩⟩
      | cons k ks =>
        cases hu : env.uploadFile (generateStableFilename file.name ch)
            (if cnt = "" then processObsidianLinks file.content vault else cnt) with
        | error e =>
          rw [syncFileChanged_add_err_eq env now vault file cnt ch lm rec sc sp st
            rec2 st2 tr2 k ks e hfold htoAdd hu] at hok
          exact absurd hok (by simp)
        | ok fid =>
          rcases hatt : (k :: ks).foldl (attachStep env now)
              ({ fileId := fid, uploadedFilename := generateStableFilename file.name ch,
                 contentHash := ch, lastModified := lm, knowledgeBases := [] },
               { st2 with fileMapping := insertA st2.fileMapping file.path rec2 }, [])
            with ⟨nr2, st3, tr4⟩
          have hcore := foldl_attach_core env now (k :: ks)
            ({ fileId := fid, uploadedFilename := generateStableFilename file.name ch,
               contentHash := ch, lastModified := lm, knowledgeBases := [] },
             { st2 with fileMapping := insertA st2.fileMapping file.path rec2 }, [])
          rw [hatt] at hcore
          rw [syncFileChanged_add_ok_eq env now vault file cnt ch lm rec sc sp st
            rec2 st2 tr2 k ks fid nr2 st3 tr4 hfold htoAdd hu hatt]
          exact ⟨nr2, lookupA_insertA_self _ file.path nr2,
            lookupA_insertA_self _ file.path sc, Or.inl ⟨hcore.2.2, hcore.2.1⟩⟩

/-- `syncFile_eq_ok` specialized to an absent record. -/
theorem syncFile_eq_ok_none (env : Env) (now : Nat) (vault : String)
    (config : Option MobileConfig) (file : FileInfo) (currentKBs : List String)
    (st : SyncState) (tc : Bool) (cnt ch : String)
    (hrec : lookupA st.fileMapping file.path = none)
    (h : hashPhase vault config now file none = .ok (tc, cnt, ch)) :
    syncFileWithStateTracking env now vault config file currentKBs st
      = (if !(tc && true)
            && !(sortKBs currentKBs != sortKBs ((lookupA st.syncState file.path).getD []))
         then (.ok (), sortSyncWrite st file.path, [])
         else syncFileChanged env now vault file (tc && true) cnt ch
           (if file.mtime = 0 then now else file.mtime) none
           (sortKBs currentKBs) (sortKBs ((lookupA st.syncState file.path).getD []))
           (sortSyncWrite st file.path)) := by
  rw [syncFile_eq_ok env now vault config file currentKBs st tc cnt ch
    (by rw [hrec]; exact h)]
  rw [hrec]

/-- After a successful reconciliation of a file with a nonzero modification
time, the stored record and membership entry satisfy exactly the quiet-run
hypotheses, for any later clock value. -/
theorem syncFile_ok_inv (env : Env) (now : Nat) (vault : String)
    (config : Option MobileConfig) (file : FileInfo) (currentKBs : List String)
    (st : SyncState) (hmtime : ¬ file.mtime = 0)
    (hok : (syncFileWithStateTracking env now vault config file currentKBs st).1
      = .ok ()) :
    ∃ r, lookupA (syncFileWithStateTracking env now vault config file currentKBs
          st).2.1.fileMapping file.path = some r ∧
      (r.lastModified = file.mtime
        ∨ generateContentHash (processObsidianLinks file.content vault)
            = r.contentHash) ∧
      sortKBs currentKBs
        = sortKBs ((lookupA (syncFileWithStateTracking env now vault config file
            currentKBs st).2.1.syncState file.path).getD []) ∧
      sortKBs ((lookupA (syncFileWithStateTracking env now vault config file
          currentKBs st).2.1.syncState file.path).getD [])
        = (lookupA (syncFileWithStateTracking env now vault config file
            currentKBs st).2.1.syncState file.path).getD [] := by
  have hlm_eq : (if file.mtime = 0 then now else file.mtime) = file.mtime :=
    if_neg hmtime
  cases hhp : hashPhase vault config now file (lookupA st.fileMapping file.path) with
  | error e =>
    rw [syncFile_eq_hashPhase_err env now vault config file currentKBs st e hhp] at hok
    exact absurd hok (by simp)
  | ok res =>
    rcases res with ⟨tc, cnt, ch⟩
    cases hprev : lookupA st.fileMapping file.path with
    | none =>
      rw [hprev] at hhp
      obtain ⟨htc, hcnt, hch⟩ := hashRead_ok_inv vault config file tc cnt ch hhp
      subst htc
      have heq := syncFile_eq_ok_none env now vault config file currentKBs st true cnt ch
        hprev hhp
      rw [show ((true && true : Bool) = true) from rfl] at heq
      simp only [Bool.not_true, Bool.false_and, Bool.false_eq_true, if_false] at heq
      rw [heq] at hok ⊢
      obtain ⟨r, h1, h2, h3⟩ := syncFileChanged_ok_inv env now vault file true cnt ch
        (if file.mtime = 0 then now else file.mtime) none (sortKBs currentKBs)
        (sortKBs ((lookupA st.syncState file.path).getD []))
        (sortSyncWrite st file.path) hok
      refine ⟨r, h1, ?_, ?_, ?_⟩
      · rcases h3 with ⟨_, hc⟩ | ⟨_, p0, hp0, _⟩
        · exact Or.inr (by rw [hc, hch])
        · exact absurd hp0 (by simp)
      · rw [h2]
        exact (sortKBs_idem currentKBs).symm
      · rw [h2]
        exact sortKBs_idem currentKBs
    | some rec =>
      rw [hprev] at hhp
      have heq := syncFile_eq_ok_some env now vault config file currentKBs st rec tc cnt
        ch hprev hhp
      cases hb1 : (tc && (rec.contentHash != ch)) with
      | false =>
        cases hb2 : (sortKBs currentKBs
            != sortKBs ((lookupA st.syncState file.path).getD [])) with
        | false =>
          rw [hb1, hb2] at heq
          simp only [Bool.not_false, Bool.and_self, if_true] at heq
          rw [heq]
          have hkbs0 : sortKBs currentKBs
              = sortKBs ((lookupA st.syncState file.path).getD []) := by
            have := bne_eq_false_iff_eq.mp hb2
            exact this
          have hq : rec.lastModified = file.mtime
              ∨ generateContentHash (processObsidianLinks file.content vault)
                  = rec.contentHash := by
            rcases hashPhase_ok_inv vault config now file rec tc cnt ch hhp with
              ⟨_, hl, _⟩ | ⟨htc, hch⟩
            · exact Or.inl (by rw [← hlm_eq]; exact hl)
            · subst htc
              have hbe : (rec.contentHash != ch) = false := hb1
              have : rec.contentHash = ch := bne_eq_false_iff_eq.mp hbe
              exact Or.inr (by rw [← hch, this])
          refine ⟨rec, ?_, hq, ?_, ?_⟩
          · rw [sortSyncWrite_fileMapping]
            exact hprev
          · rw [sortSyncWrite_syncState]
            cases hss : lookupA st.syncState file.path with
            | none =>
              rw [hss] at hkbs0
              exact hkbs0
            | some l =>
              rw [hss] at hkbs0
              show sortKBs currentKBs = sortKBs ((some (sortKBs l)).getD [])
              rw [hkbs0]
              exact (sortKBs_idem l).symm
          · rw [sortSyncWrite_syncState]
            cases hss : lookupA st.syncState file.path with
            | none => rfl
            | some l =>
              show sortKBs ((some (sortKBs l)).getD []) = (some (sortKBs l)).getD []
              exact sortKBs_idem l
        | true =>
          rw [hb1, hb2] at heq
          simp only [Bool.not_false, Bool.not_true, Bool.and_false, Bool.false_eq_true,
            if_false] at heq
          rw [heq] at hok ⊢
          obtain ⟨r, h1, h2, h3⟩ := syncFileChanged_ok_inv env now vault file false cnt
            ch (if file.mtime = 0 then now else file.mtime) (some rec)
            (sortKBs currentKBs) (sortKBs ((lookupA st.syncState file.path).getD []))
            (sortSyncWrite st file.path) hok
          refine ⟨r, h1, ?_, ?_, ?_⟩
          · rcases h3 with ⟨hl, _⟩ | ⟨_, p0, hp0, hl, hc⟩
            · exact Or.inl (by rw [← hlm_eq]; exact hl)
            · have hp0r : rec = p0 := by injection hp0
              subst hp0r
              rcases hashPhase_ok_inv vault config now file rec tc cnt ch hhp with
                ⟨_, hlm2, _⟩ | ⟨htc, hch⟩
              · exact Or.inl (by rw [hl, ← hlm_eq]; exact hlm2)
              · subst htc
                have hbe : (rec.contentHash != ch) = false := hb1
                have hrc : rec.contentHash = ch := bne_eq_false_iff_eq.mp hbe
                exact Or.inr (by rw [hc, ← hch, hrc])
          · rw [h2]
            exact (sortKBs_idem currentKBs).symm
          · rw [h2]
            exact sortKBs_idem currentKBs
      | true =>
        rw [hb1] at heq
        simp only [Bool.not_true, Bool.false_and, Bool.false_eq_true, if_false] at heq
        rw [heq] at hok ⊢
        obtain ⟨r, h1, h2, h3⟩ := syncFileChanged_ok_inv env now vault file true cnt ch
          (if file.mtime = 0 then now else file.mtime) (some rec)
          (sortKBs currentKBs) (sortKBs ((lookupA st.syncState file.path).getD []))
          (sortSyncWrite st file.path) hok
        refine ⟨r, h1, ?_, ?_, ?_⟩
        · rcases h3 with ⟨hl, _⟩ | ⟨hcc, _⟩
          · exact Or.inl (by rw [← hlm_eq]; exact hl)
          · exact absurd hcc (by simp)
        · rw [h2]
          exact (sortKBs_idem currentKBs).symm
        · rw [h2]
          exact sortKBs_idem currentKBs

/-! ## C1: idempotence -/

def c1Env : Env :=
  { listKBs := .ok [{ id := "kb-a", name := "A", description := "" }],
    createKB := fun n => .ok ("kb-" ++ n),
    uploadFile := fun _ _ => .ok "fid-9",
    addFile := fun _ _ => .ok (),
    removeFile := fun _ _ => .ok (),
    deleteFile := fun _ => .ok () }

def c1Rec : FileRecord :=
  { fileId := "fid-1", uploadedFilename := "note_5e918d2.md", contentHash := "5e918d2",
    lastModified := 7, knowledgeBases := ["A"] }

def c1File : FileInfo :=
  { path := "p", name := "note.md", content := "hello", mtime := 7 }

def c1St : SyncState :=
  { syncState := [("p", ["A"])], fileMapping := [("p", c1Rec)], kbCache := [], synced := 0 }

/-- C1: a document whose computed content fingerprint equals the stored one
and whose declared membership set equals the stored one (the stored array
being sorted, as every pass stores it) is reconciled with zero remote calls
and an unchanged state; consequently, for a file with a nonzero
modification time, a second reconciliation right after a successful one —
under any environment and clock — issues zero remote calls and leaves the
state of the first pass untouched. -/
theorem c1_no_change_idempotence (env : Env) (now : Nat) (vault : String)
    (config : Option MobileConfig) (file : FileInfo) (currentKBs : List String)
    (st : SyncState) (rec : FileRecord)
    (hrec : lookupA st.fileMapping file.path = some rec)
    (hhash : generateContentHash (processObsidianLinks file.content vault)
      = rec.contentHash)
    (hkbs : sortKBs currentKBs = sortKBs ((lookupA st.syncState file.path).getD []))
    (hsorted : sortKBs ((lookupA st.syncState file.path).getD [])
      = (lookupA st.syncState file.path).getD []) :
    (syncFileWithStateTracking env now vault config file currentKBs st).2 = (st, []) ∧
    (∀ (env2 : Env) (now2 : Nat) (st0 : SyncState), ¬ file.mtime = 0 →
      (syncFileWithStateTracking env now vault config file currentKBs st0).1 = .ok () →
      (syncFileWithStateTracking env2 now2 vault config file currentKBs
          (syncFileWithStateTracking env now vault config file currentKBs st0).2.1).2
        = ((syncFileWithStateTracking env now vault config file currentKBs st0).2.1,
           [])) := by
  constructor
  · exact syncFile_noop env now vault config file currentKBs st rec hrec
      (Or.inr hhash) hkbs hsorted
  · intro env2 now2 st0 hmtime hok
    obtain ⟨r, h1, h2, h3, h4⟩ := syncFile_ok_inv env now vault config file currentKBs
      st0 hmtime hok
    refine syncFile_noop env2 now2 vault config file currentKBs _ r h1 ?_ h3 h4
    rcases h2 with h | h
    · exact Or.inl (by rw [if_neg hmtime]; exact h)
    · exact Or.inr h

/-- C1 witness: the idempotence theorem applied to a concrete quiet
document, with every hypothesis decided. -/
theorem c1_no_change_idempotence_witness :
    (lookupA c1St.fileMapping c1File.path = some c1Rec ∧
     generateContentHash (processObsidianLinks c1File.content "V") = c1Rec.contentHash ∧
     sortKBs ["A"] = sortKBs ((lookupA c1St.syncState c1File.path).getD []) ∧
     sortKBs ((lookupA c1St.syncState c1File.path).getD [])
       = (lookupA c1St.syncState c1File.path).getD []) ∧
    ((syncFileWithStateTracking c1Env 5 "V" none c1File ["A"] c1St).2 = (c1St, []) ∧
     (∀ (env2 : Env) (now2 : Nat) (st0 : SyncState), ¬ c1File.mtime = 0 →
       (syncFileWithStateTracking c1Env 5 "V" none c1File ["A"] st0).1 = .ok () →
       (syncFileWithStateTracking env2 now2 "V" none c1File ["A"]
           (syncFileWithStateTracking c1Env 5 "V" none c1File ["A"] st0).2.1).2
         = ((syncFileWithStateTracking c1Env 5 "V" none c1File ["A"] st0).2.1, []))) :=
  ⟨⟨rfl, by decide, by decide, by decide⟩,
   c1_no_change_idempotence c1Env 5 "V" none c1File ["A"] c1St c1Rec rfl (by decide)
     (by decide) (by decide)⟩

end KBSync
